import Mathlib

/-!
Verification development for the mining-report pipeline (mining_report.py).

The script is Python 2 (CPython 2.7, 64-bit build).  We embed it shallowly:

* a csv.DictReader row is an association list from column name to string value;
* the totals dict of the gold-rank report, whose items() iteration order the
  ranking statements depend on, is modelled by a faithful CPython 2.7
  string-keyed hash table (string_hash, open-addressing lookdict probing and
  the resize rule of dictobject.c), so its iteration order is the hash-slot
  order of the real interpreter; the other dicts and sets, about which every
  verified statement here is insensitive to iteration order, are modelled by
  association lists whose insertion keeps the position of an existing key and
  appends a new key;
* decimal.Decimal values are exact fractions; the Decimal constructor is
  exact, and every arithmetic operation rounds its exact rational result to
  the 28 significant digits of the default context with ROUND_HALF_EVEN, as
  decimal.Context does, so a context-rounded result is again an exact
  fraction;
* dates parsed by strptime with format %Y-%m-%d are encoded as the natural
  number y*10000 + m*100 + d, which is order-isomorphic to calendar order for
  months up to 12 and days up to 31 (the ranges strptime accepts); ordering a
  datetime.date against None raises TypeError in Python 2.7 (date blocks the
  generic mixed-type fallback), which the filter model reproduces;
* a raised Python exception is an Except.error; the script never catches the
  exceptions modelled here, so an error value means the report aborts with a
  traceback and a non-zero exit status.
-/

namespace MiningReport

/-- Python exceptions raised by the script: KeyError d[k] with the missing key,
ValueError from strptime with the offending text, InvalidOperation from the
Decimal constructor with the offending text, and TypeError with its message
(raised in Python 2.7 when a datetime.date is ordered against None). -/
inductive Err where
  | keyError (k : String)
  | valueError (s : String)
  | invalidOperation (s : String)
  | typeError (s : String)
deriving DecidableEq

instance exceptDecEq {ε α : Type} [DecidableEq ε] [DecidableEq α] :
    DecidableEq (Except ε α) := fun x y =>
  match x, y with
  | Except.ok a, Except.ok b =>
    if h : a = b then isTrue (by rw [h])
    else isFalse (fun hc => h (Except.ok.inj hc))
  | Except.error e, Except.error f =>
    if h : e = f then isTrue (by rw [h])
    else isFalse (fun hc => h (Except.error.inj hc))
  | Except.ok _, Except.error _ => isFalse (fun hc => Except.noConfusion hc)
  | Except.error _, Except.ok _ => isFalse (fun hc => Except.noConfusion hc)

/-- One csv.DictReader row: column name to string value, in header order. -/
abbrev Row : Type := List (String × String)

/-- Reading d[k] from the association-list model of a Python dict. -/
def odLookup {α β : Type} [DecidableEq α] (k : α) : List (α × β) → Option β
  | [] => none
  | (k2, v) :: rest => if k2 = k then some v else odLookup k rest

/-- Writing d[k] = v in the association-list model of a Python dict: an
existing key keeps its position and gets the new value, a new key is appended
at the end.  This deterministic model is used only for the dicts about which
every statement proved here is insensitive to iteration order; the totals
dict of the gold ranking, whose iteration order matters, uses the faithful
hash-table model below. -/
def odInsert {α β : Type} [DecidableEq α] (k : α) (v : β) : List (α × β) → List (α × β)
  | [] => [(k, v)]
  | (k2, v2) :: rest => if k2 = k then (k, v) :: rest else (k2, v2) :: odInsert k v rest

/-- Duplicate removal keeping the first occurrence of each element; this is the
deterministic abstraction used for iteration over a Python set built from a
list of values. -/
def dedupFirstAux {α : Type} [DecidableEq α] (seen : List α) : List α → List α
  | [] => []
  | x :: xs => if x ∈ seen then dedupFirstAux seen xs else x :: dedupFirstAux (x :: seen) xs

/-- Duplicate removal keeping first occurrences, starting from nothing seen. -/
def dedupFirst {α : Type} [DecidableEq α] (l : List α) : List α :=
  dedupFirstAux [] l

/-- The itertools.product iteration order: first component outer, second
component inner. -/
def listProd {α β : Type} (xs : List α) (ys : List β) : List (α × β) :=
  xs.flatMap (fun x => ys.map (fun y => (x, y)))

/-- Exact rational numbers in lowest terms with a positive denominator,
modelling decimal.Decimal values: the Decimal constructor is exact, and every
Decimal value (also after the context rounding the arithmetic below applies)
is a terminating decimal fraction, hence an exact rational.  A dedicated
structure is used because its operations reduce inside the Lean kernel. -/
structure Dec where
  num : ℤ
  den : ℕ
  den_pos : 0 < den

instance : DecidableEq Dec := fun a b =>
  if h1 : a.num = b.num then
    if h2 : a.den = b.den then
      isTrue (by cases a; cases b; simp only at h1 h2; subst h1; subst h2; rfl)
    else isFalse (fun hc => h2 (by rw [hc]))
  else isFalse (fun hc => h1 (by rw [hc]))

/-- The canonical fraction n / d, in lowest terms; a zero denominator (which
the script can never feed in) falls back to zero. -/
def Dec.norm (n : ℤ) (d : ℕ) : Dec :=
  if hd : d = 0 then ⟨0, 1, Nat.one_pos⟩
  else
    let g := n.natAbs.gcd d
    ⟨n / (g : ℤ), d / g,
      Nat.div_pos (Nat.le_of_dvd (Nat.pos_of_ne_zero hd) (Nat.gcd_dvd_right _ _))
        (Nat.pos_of_ne_zero (fun h0 => hd ((Nat.gcd_eq_zero_iff.mp h0).2)))⟩

/-- The Decimal value of a natural number. -/
def Dec.ofNat (n : ℕ) : Dec := ⟨n, 1, Nat.one_pos⟩

/-- Number of decimal digits of n, with fuel (n itself is always enough). -/
def numDigitsAux : Nat → Nat → Nat
  | 0, _ => 1
  | fuel + 1, n => if n < 10 then 1 else numDigitsAux fuel (n / 10) + 1

/-- Number of decimal digits of a natural number (1 for zero). -/
def numDigits (n : Nat) : Nat := numDigitsAux n n

/-- The quotient N / D rounded to the nearest integer, ties to even: the
ROUND_HALF_EVEN rule of the default decimal context. -/
def roundHalfEven (N D : Nat) : Nat :=
  let q := N / D
  let r := N % D
  if 2 * r < D then q
  else if D < 2 * r then q + 1
  else if q % 2 = 0 then q else q + 1

/-- The exact fraction n / d rounded to the 28 significant digits of the
default decimal context with ROUND_HALF_EVEN, as every arithmetic operation
of the decimal module rounds its exact result: the adjusted exponent e of
|n/d| is found from the digit counts of n and d, the coefficient is the
half-even rounding of |n/d| scaled to 28 digits, and the result is returned
as the exact rational value of that rounded decimal.  When the exact quotient
fits in 28 significant digits the rounding is the identity. -/
def decRound28 (n : ℤ) (d : Nat) : Dec :=
  if n = 0 then ⟨0, 1, Nat.one_pos⟩
  else
    let na := n.natAbs
    let a := numDigits na
    let b := numDigits d
    let c : ℤ := (a : ℤ) - (b : ℤ)
    let cond : Bool :=
      if 0 ≤ c then decide (d * 10 ^ c.toNat ≤ na) else decide (d ≤ na * 10 ^ (-c).toNat)
    let e : ℤ := if cond then c else c - 1
    let E : ℤ := e - 27
    let m := roundHalfEven (na * 10 ^ (-E).toNat) (d * 10 ^ E.toNat)
    let v : ℤ := (m : ℤ) * 10 ^ E.toNat
    Dec.norm (if n < 0 then -v else v) (10 ^ (-E).toNat)

/-- Decimal addition: the exact sum rounded by the default context. -/
def Dec.add (a b : Dec) : Dec :=
  decRound28 (a.num * b.den + b.num * a.den) (a.den * b.den)

/-- Decimal multiplication: the exact product rounded by the default
context. -/
def Dec.mul (a b : Dec) : Dec :=
  decRound28 (a.num * b.num) (a.den * b.den)

/-- Decimal division: the exact quotient rounded by the default context; the
script only divides by values already tested truthy, so the zero-divisor
fallback is never reached. -/
def Dec.div (a b : Dec) : Dec :=
  if b.num < 0 then decRound28 (-(a.num * b.den)) (a.den * b.num.natAbs)
  else decRound28 (a.num * b.den) (a.den * b.num.natAbs)

/-- Decimal negation. -/
def Dec.neg (a : Dec) : Dec := ⟨-a.num, a.den, a.den_pos⟩

instance : LE Dec := ⟨fun a b => a.num * b.den ≤ b.num * a.den⟩

instance (a b : Dec) : Decidable (a ≤ b) :=
  inferInstanceAs (Decidable (a.num * b.den ≤ b.num * a.den))

/-- Column-name constants used by the reports. -/
def fElfName : String := "Elf Name"

/-- Column name for the elf identifier. -/
def fElfId : String := "Elf ID"

/-- Column name for the gem type. -/
def fGemType : String := "Gem Type"

/-- Column name for the weight of one gem. -/
def fWeight : String := "Weight"

/-- Column name for the quantity of gems in a row. -/
def fQuantity : String := "Quantity"

/-- Column name for the gold amount. -/
def fGold : String := "Gold"

/-- Column name for the mining date. -/
def fMiningDate : String := "Mining Date"

/-- Column name for the color in the gem-type lookup file. -/
def fColor : String := "Color"

/-- Reading row[k] on a row known to contain k; the empty-string default is
never reached on the rows the pipeline feeds to it. -/
def getField (row : Row) (k : String) : String :=
  (odLookup k row).getD ""

/-- Splitting a character list at every occurrence of a separator character,
as str.split does on a one-character separator. -/
def splitOnChar (c : Char) : List Char → List (List Char)
  | [] => [[]]
  | x :: xs =>
    if x = c then [] :: splitOnChar c xs
    else
      match splitOnChar c xs with
      | [] => [[x]]
      | r :: rs => (x :: r) :: rs

/-- Accumulating read of a decimal digit string. -/
def digitsToNatAux (acc : Nat) : List Char → Option Nat
  | [] => some acc
  | d :: ds =>
    if 48 ≤ d.toNat ∧ d.toNat ≤ 57 then
      digitsToNatAux (acc * 10 + (d.toNat - 48)) ds
    else none

/-- The numeric value of a non-empty string of decimal digits. -/
def digitsToNat? (l : List Char) : Option Nat :=
  match l with
  | [] => none
  | _ => digitsToNatAux 0 l

/-- Parse of datetime.strptime(s, %Y-%m-%d).date() into the numeric date
encoding; none models the ValueError strptime raises on text it rejects. -/
def parseDate (s : String) : Option Nat :=
  match splitOnChar '-' s.data with
  | [y, m, d] =>
    match digitsToNat? y, digitsToNat? m, digitsToNat? d with
    | some yn, some mn, some dn =>
      if 1 ≤ mn ∧ mn ≤ 12 ∧ 1 ≤ dn ∧ dn ≤ 31 then
        some (yn * 10000 + mn * 100 + dn)
      else none
    | _, _, _ => none
  | _ => none

/-- Parse of Decimal(t) for an unsigned plain decimal numeral. -/
def parseDecChars (l : List Char) : Option Dec :=
  match splitOnChar '.' l with
  | [i] => (digitsToNat? i).map (fun n => Dec.norm n 1)
  | [i, f] =>
    match digitsToNat? i, digitsToNat? f with
    | some ni, some nf =>
      some (Dec.norm ((ni : ℤ) * (10 : ℤ) ^ f.length + (nf : ℤ)) ((10 : ℕ) ^ f.length))
    | _, _ => none
  | _ => none

/-- Parse of Decimal(s) for the plain decimal numerals the input files hold,
with an optional leading minus sign; none models InvalidOperation. -/
def parseDec (s : String) : Option Dec :=
  match s.data with
  | '-' :: rest => (parseDecChars rest).map Dec.neg
  | l => parseDecChars l

/-- The message of the TypeError CPython 2.7 raises when a datetime.date is
ordered against None: date_richcompare rejects the mixed comparison instead
of falling back to the type-name ordering of other objects. -/
def pyDateNoneCmpMsg : String := "can't compare datetime.date to NoneType"

/-- The field loop at the top of GetDataSet.keep_me: walk the required columns
in order; a missing column is the KeyError case (reported with that column
name), the first empty value answers false (row skipped), otherwise true. -/
def checkNonEmpty : List String → Row → Except String Bool
  | [], _ => Except.ok true
  | c :: cs, row =>
    match odLookup c row with
    | none => Except.error c
    | some v => if v = "" then Except.ok false else checkNonEmpty cs row

/-- GetDataSet.keep_me: every required field and the date column must be
non-empty, the date must parse, and the date-window test
(mining_date < start or mining_date >= end) must fail for the row to be
kept.  A missing column re-raises the KeyError after logging the column
name.  The or evaluates left to right and short-circuits, and ordering the
parsed date against a None bound raises the TypeError of CPython 2.7, which
the try block does not catch. -/
def keep_me (fieldnames_in : List String) (ds de : Option Nat) (row : Row) :
    Except Err Bool :=
  match checkNonEmpty (fieldnames_in ++ [fMiningDate]) row with
  | Except.error c => Except.error (Err.keyError c)
  | Except.ok false => Except.ok false
  | Except.ok true =>
    match odLookup fMiningDate row with
    | none => Except.error (Err.keyError fMiningDate)
    | some dstr =>
      match parseDate dstr with
      | none => Except.error (Err.valueError dstr)
      | some d =>
        match ds with
        | none => Except.error (Err.typeError pyDateNoneCmpMsg)
        | some s =>
          if d < s then Except.ok false
          else
            match de with
            | none => Except.error (Err.typeError pyDateNoneCmpMsg)
            | some e => if e ≤ d then Except.ok false else Except.ok true

/-- The projection x = row restricted to fieldnames_in performed by
GetDataSet.get_csv_bits on each kept row. -/
def projectRow (ks : List String) (row : Row) : Row :=
  ks.map (fun k => (k, getField row k))

/-- GetDataSet.get_csv_bits: filter the rows of the file through keep_me and
project each kept row to the required columns; any exception raised while
iterating aborts the whole read. -/
def get_csv_bits (fieldnames_in : List String) (ds de : Option Nat) :
    List Row → Except Err (List Row)
  | [] => Except.ok []
  | row :: rest =>
    match keep_me fieldnames_in ds de row with
    | Except.error e => Except.error e
    | Except.ok keep =>
      match get_csv_bits fieldnames_in ds de rest with
      | Except.error e => Except.error e
      | Except.ok tail =>
        if keep then Except.ok (projectRow fieldnames_in row :: tail)
        else Except.ok tail

/-- Stable insertion of one element into a list already sorted by descending
key: the new element goes after every earlier element whose key is at least as
large, matching the stability of the sorted builtin with reverse=True. -/
def sortInsertDesc {α : Type} (key : α → Dec) (x : α) : List α → List α
  | [] => [x]
  | y :: ys => if key x ≤ key y then y :: sortInsertDesc key x ys else x :: y :: ys

/-- Stable descending sort by a rational key, modelling
sorted(items, key, reverse=True). -/
def sortDescBy {α : Type} (key : α → Dec) (l : List α) : List α :=
  l.foldl (fun acc x => sortInsertDesc key x acc) []

/-- Pairing of each list element with its 1-based position, modelling the
comprehension rank[i] + (i+1,) over the sorted list. -/
def rankIndex {α : Type} : Nat → List α → List (α × Nat)
  | _, [] => []
  | i, x :: xs => (x, i) :: rankIndex (i + 1) xs

/-- The ranking step shared by both reports: stable descending sort by the
key, then attach the dense ranks 1..N in sorted order. -/
def denseRank {α : Type} (key : α → Dec) (l : List α) : List (α × Nat) :=
  rankIndex 1 (sortDescBy key l)

/-- One output row of the total-gold-rank report. -/
structure TgrRow where
  name : String
  gold : Dec
  rank : Nat
deriving DecidableEq

/-- The word size of the 64-bit CPython 2.7 build: hash values and probe
indices are taken modulo this. -/
def PY2_WORD : Nat := 2 ^ 64

/-- The multiply-xor loop of string_hash in CPython 2.7 stringobject.c:
x = (1000003 * x) xor ch for each character, in 64-bit unsigned arithmetic. -/
def py2hashAux (x : Nat) : List Char → Nat
  | [] => x
  | ch :: cs => py2hashAux (((1000003 * x) % PY2_WORD) ^^^ ch.toNat) cs

/-- string_hash of CPython 2.7 on a 64-bit build, as an unsigned 64-bit
value: start from the first byte shifted left 7, fold the multiply-xor loop
over all bytes, xor the length in, and map the reserved value -1 to -2.  The
empty string hashes to 0. -/
def py2hash (s : String) : Nat :=
  match s.data with
  | [] => 0
  | ch :: _ =>
    let x0 := (ch.toNat <<< 7) % PY2_WORD
    let x1 := py2hashAux x0 s.data
    let x2 := x1 ^^^ (s.data.length % PY2_WORD)
    if x2 = PY2_WORD - 1 then PY2_WORD - 2 else x2

/-- A CPython 2.7 string-keyed dict: the power-of-two table size, the slot
array (none is an empty slot; the script never deletes, so there are no
dummies), and the number of used slots. -/
structure PyDict (β : Type) where
  size : Nat
  slots : List (Option (String × β))
  used : Nat

/-- The probe sequence of lookdict_string in dictobject.c: start at
hash mod size, and while the slot is occupied by a different key step to
i = 5*i + perturb + 1 (in 64-bit arithmetic, reduced modulo the size only
when indexing) with perturb shifted right 5 each step, until an empty slot
or the key is found.  The fuel covers the at most 13 steps that exhaust the
perturb plus a full period of the residual i -> 5*i + 1 congruence, which
visits every slot of a power-of-two table, so the fuel never runs out on a
table with an empty slot. -/
def pyProbe {β : Type} (slots : List (Option (String × β))) (size : Nat)
    (k : String) : Nat → Nat → Nat → Nat
  | 0, i, _ => i % size
  | fuel + 1, i, perturb =>
    match (slots.get? (i % size)).getD none with
    | none => i % size
    | some (k2, _) =>
      if k2 = k then i % size
      else pyProbe slots size k fuel ((5 * i + perturb + 1) % PY2_WORD) (perturb >>> 5)

/-- The slot index at which lookdict_string leaves key k: either the slot
holding k or the first empty slot of its probe sequence. -/
def pyFind {β : Type} (d : PyDict β) (k : String) : Nat :=
  pyProbe d.slots d.size k (d.size + 16) (py2hash k % d.size) (py2hash k)

/-- Reading d[k] from the hash-table model; none models the KeyError. -/
def pyLookup {β : Type} (d : PyDict β) (k : String) : Option β :=
  match (d.slots.get? (pyFind d k)).getD none with
  | some (k2, v) => if k2 = k then some v else none
  | none => none

/-- insertdict: overwrite the value if the probe found the key, otherwise
fill the empty slot the probe found and count it used. -/
def pyInsertRaw {β : Type} (d : PyDict β) (k : String) (v : β) : PyDict β :=
  let i := pyFind d k
  let isNew := ((d.slots.get? i).getD none).isNone
  ⟨d.size, d.slots.set i (some (k, v)), if isNew then d.used + 1 else d.used⟩

/-- Iteration order of dict.items(): the occupied slots in slot order, which
is the order the reports see the totals in. -/
def pyItems {β : Type} (d : PyDict β) : List (String × β) :=
  d.slots.filterMap (fun o => o)

/-- The size-doubling loop of dictresize: the new table size is the smallest
power of two, at least PyDict_MINSIZE = 8, strictly greater than minused. -/
def pyNewSizeAux (minused : Nat) : Nat → Nat → Nat
  | 0, s => s
  | fuel + 1, s => if minused < s then s else pyNewSizeAux minused fuel (2 * s)

/-- The new table size dictresize picks for a requested minimum. -/
def pyNewSize (minused : Nat) : Nat := pyNewSizeAux minused (minused + 4) 8

/-- PyDict_SetItem: insert, then, if a new key was added and the fill now
reaches two thirds of the table, resize to hold 4 * used, reinserting the
occupied slots in slot order as dictresize does. -/
def pySetItem {β : Type} (d : PyDict β) (k : String) (v : β) : PyDict β :=
  let d2 := pyInsertRaw d k v
  if d.used < d2.used ∧ 2 * d2.size ≤ 3 * d2.used then
    (pyItems d2).foldl (fun t e => pyInsertRaw t e.1 e.2)
      ⟨pyNewSize (4 * d2.used), List.replicate (pyNewSize (4 * d2.used)) none, 0⟩
  else d2

/-- The empty dict(): a table of PyDict_MINSIZE = 8 empty slots. -/
def pyEmpty (β : Type) : PyDict β := ⟨8, List.replicate 8 none, 0⟩

/-- One pass of the totals loop in TotalGoldRank.rank_tgr_by_elf: add the gold
of the row to the total of its elf, creating the entry on first sight.  The
totals dict is the faithful hash-table model, because the report's output
order depends on its iteration order. -/
def addGold (totals : PyDict Dec) (row : Row) : Except Err (PyDict Dec) :=
  match parseDec (getField row fGold) with
  | none => Except.error (Err.invalidOperation (getField row fGold))
  | some g =>
    match pyLookup totals (getField row fElfName) with
    | some t => Except.ok (pySetItem totals (getField row fElfName) (Dec.add t g))
    | none => Except.ok (pySetItem totals (getField row fElfName) g)

/-- Error-propagating left fold used to model the accumulation loops. -/
def foldSteps {σ : Type} (f : σ → Row → Except Err σ) : σ → List Row → Except Err σ
  | s, [] => Except.ok s
  | s, r :: rs =>
    match f s r with
    | Except.error e => Except.error e
    | Except.ok s2 => foldSteps f s2 rs

/-- TotalGoldRank.rank_tgr_by_elf: filter and project the rows, total the gold
per elf, sort totals.items() (the occupied slots of the dict in slot order)
descending by total and attach ranks 1..N. -/
def rank_tgr_by_elf (ds de : Option Nat) (input : List Row) :
    Except Err (List TgrRow) :=
  match get_csv_bits [fElfName, fGold] ds de input with
  | Except.error e => Except.error e
  | Except.ok kept =>
    match foldSteps addGold (pyEmpty Dec) kept with
    | Except.error e => Except.error e
    | Except.ok totals =>
      Except.ok ((denseRank (fun p => p.2) (pyItems totals)).map
        (fun pr => TgrRow.mk pr.1.1 pr.1.2 pr.2))

/-- The total-gold-rank report as invoked from the command line: the
constructor parses the start and the end date strings (raising ValueError on
bad input) and the generator then produces the ranked rows. -/
def tgrReport (date_start date_end : String) (input : List Row) :
    Except Err (List TgrRow) :=
  match parseDate date_start with
  | none => Except.error (Err.valueError date_start)
  | some d1 =>
    match parseDate date_end with
    | none => Except.error (Err.valueError date_end)
    | some d2 => rank_tgr_by_elf (some d1) (some d2) input

/-- Events of GetDataSet.write_new_csv, in the order they happen: the output
file is created by open, the header row is written, then the rows produced by
the generator are written one by one; an exception while the generator runs
aborts after the header with nothing else written. -/
inductive Ev (α : Type) where
  | createFile
  | headerRow
  | dataRow (r : α)
  | failure (e : Err)
deriving DecidableEq

/-- GetDataSet.write_new_csv as an event trace: open creates the file first,
the header goes out next, and only then is the row list materialised, so a
failure while reading the input happens after the output file exists. -/
def write_new_csv {α : Type} (rows : Except Err (List α)) : List (Ev α) :=
  Ev.createFile :: Ev.headerRow ::
    (match rows with
     | Except.ok rs => rs.map Ev.dataRow
     | Except.error e => [Ev.failure e])

/-- make_rank_by_tgr: construct the TotalGoldRank data set (parsing the two
date strings; a ValueError there precedes any file creation) and then run
write_new_csv on it. -/
def make_rank_by_tgr (date_start date_end : String) (input : List Row) :
    List (Ev TgrRow) :=
  match parseDate date_start with
  | none => [Ev.failure (Err.valueError date_start)]
  | some d1 =>
    match parseDate date_end with
    | none => [Ev.failure (Err.valueError date_end)]
    | some d2 => write_new_csv (rank_tgr_by_elf (some d1) (some d2) input)

/-- GemTypeLookup.COLOR_TO_COLORCAT, the hard-coded color-category table. -/
def COLOR_TO_COLORCAT : List (String × String) :=
  [("Cerulean", "Blue"),
   ("Teal", "Blue"),
   ("Cyan", "Blue"),
   ("Azure", "Blue"),
   ("Turquoise", "Blue"),
   ("Green", "Green"),
   ("Purple", "Purple"),
   ("Orange", "Orange"),
   ("Red", "Red"),
   ("Brown", "Brown"),
   ("Yellow", "Yellow"),
   ("Magenta", "Magenta"),
   ("Fuscia", "Magenta")]

/-- MarketShareAnalysis.lookup_gem_rows: read the gem-type lookup file (whose
keep_me always answers true) and build the dict gem type to color, a later
row for the same gem type overwriting the earlier one. -/
def lookup_gem_rows (colo : List Row) : Except Err (List (String × String)) :=
  foldSteps
    (fun m row =>
      match odLookup fGemType row with
      | none => Except.error (Err.keyError fGemType)
      | some t =>
        match odLookup fColor row with
        | none => Except.error (Err.keyError fColor)
        | some c => Except.ok (odInsert t c m))
    [] colo

/-- The tuple built inside MarketShareAnalysis.elf_grams_by_gem_color before
the rank is attached: (Color Cat, Gem Color, Elf Name, Elf ID, Total Weight). -/
structure PreRow where
  colorCat : String
  gemColor : String
  elfName : String
  elfId : String
  totalWeight : Dec
deriving DecidableEq

/-- One row of the per-elf market-share data set, in the order of
fieldnames_out of MarketShareAnalysis. -/
structure MsRow where
  colorCat : String
  gemColor : String
  elfName : String
  elfId : String
  totalWeight : Dec
  rankInColor : Nat
deriving DecidableEq

/-- Conversion of a ranked tuple into a market-share row, modelling
dict(zip(fieldnames_out, row)). -/
def toMsRow (p : PreRow × Nat) : MsRow :=
  MsRow.mk p.1.colorCat p.1.gemColor p.1.elfName p.1.elfId p.1.totalWeight p.2

/-- MarketShareAnalysis.add_grams_for_gem_color: look the gem type of the row
up in the lookup dict (a miss is an uncaught KeyError naming the gem type),
multiply weight by quantity as Decimals, and add the product into the color
entry of the given dict. -/
def add_grams_for_gem_color (gem_rows : List (String × String))
    (gem_color_dict : List (String × Dec)) (row : Row) :
    Except Err (List (String × Dec)) :=
  match odLookup (getField row fGemType) gem_rows with
  | none => Except.error (Err.keyError (getField row fGemType))
  | some gem_color =>
    match parseDec (getField row fWeight) with
    | none => Except.error (Err.invalidOperation (getField row fWeight))
    | some w =>
      match parseDec (getField row fQuantity) with
      | none => Except.error (Err.invalidOperation (getField row fQuantity))
      | some q =>
        match odLookup gem_color gem_color_dict with
        | none => Except.ok (odInsert gem_color (Dec.mul w q) gem_color_dict)
        | some t => Except.ok (odInsert gem_color (Dec.add t (Dec.mul w q)) gem_color_dict)

/-- The mutable state of the row loop of elf_grams_by_gem_color: the nested
dict elf to (color to grams) and the dict elf to Elf ID. -/
structure MsState where
  perElf : List (String × List (String × Dec))
  elfIds : List (String × String)
deriving DecidableEq

/-- One iteration of the row loop of elf_grams_by_gem_color: record the Elf ID
of the row (a later row overwrites the value), create the per-elf dict on
first sight, and add the grams of the row into it. -/
def msStep (gem_rows : List (String × String)) (st : MsState) (row : Row) :
    Except Err MsState :=
  match add_grams_for_gem_color gem_rows
      ((odLookup (getField row fElfName) st.perElf).getD []) row with
  | Except.error e => Except.error e
  | Except.ok colorMap =>
    Except.ok
      (MsState.mk (odInsert (getField row fElfName) colorMap st.perElf)
        (odInsert (getField row fElfName) (getField row fElfId) st.elfIds))

/-- Appending one tuple to the per-color list of the gem_colors dict,
modelling gem_colors[color].append(tuple) with creation on first sight. -/
def odAppend (color : String) (t : PreRow) (gc : List (String × List PreRow)) :
    List (String × List PreRow) :=
  match odLookup color gc with
  | some l => odInsert color (l ++ [t]) gc
  | none => odInsert color [t] gc

/-- The inner loop of the grouping phase of elf_grams_by_gem_color for one
elf: walk its color map in order and append one tuple per color; the category
lookup COLOR_TO_COLORCAT[gem_color] is an uncaught KeyError when the color has
no category. -/
def groupColorsOfElf (elfIds : List (String × String)) (elf : String) :
    List (String × Dec) → List (String × List PreRow) →
    Except Err (List (String × List PreRow))
  | [], gc => Except.ok gc
  | (color, grams) :: rest, gc =>
    match odLookup color COLOR_TO_COLORCAT with
    | none => Except.error (Err.keyError color)
    | some cat =>
      groupColorsOfElf elfIds elf rest
        (odAppend color (PreRow.mk cat color elf ((odLookup elf elfIds).getD "") grams) gc)

/-- The outer loop of the grouping phase of elf_grams_by_gem_color: walk the
per-elf dict in order and collect the tuples per gem color. -/
def groupByColor (elfIds : List (String × String)) :
    List (String × List (String × Dec)) → List (String × List PreRow) →
    Except Err (List (String × List PreRow))
  | [], gc => Except.ok gc
  | (elf, colorMap) :: rest, gc =>
    match groupColorsOfElf elfIds elf colorMap gc with
    | Except.error e => Except.error e
    | Except.ok gc2 => groupByColor elfIds rest gc2

/-- The final loop of elf_grams_by_gem_color: for each gem color in dict
order, sort its tuples by Total Weight descending (stable) and attach the
ranks 1..N within the color. -/
def rankWithinColors (grouped : List (String × List PreRow)) : List MsRow :=
  grouped.flatMap
    (fun g => (denseRank PreRow.totalWeight g.2).map toMsRow)

/-- The fieldnames_in of MarketShareAnalysis. -/
def msFieldnamesIn : List String :=
  [fElfName, fElfId, fGemType, fWeight, fQuantity]

/-- MarketShareAnalysis.elf_grams_by_gem_color: filter and project the mining
rows, accumulate grams per elf and gem color while recording the Elf IDs,
group the totals by color, and rank the elves within each color.  The result
pairs the produced rows with the elf_ids dict the pass left behind. -/
def elf_grams_by_gem_color (gem_rows : List (String × String))
    (ds de : Option Nat) (input : List Row) :
    Except Err (List MsRow × List (String × String)) :=
  match get_csv_bits msFieldnamesIn ds de input with
  | Except.error e => Except.error e
  | Except.ok kept =>
    match foldSteps (msStep gem_rows) (MsState.mk [] []) kept with
    | Except.error e => Except.error e
    | Except.ok st =>
      match groupByColor st.elfIds st.perElf [] with
      | Except.error e => Except.error e
      | Except.ok grouped => Except.ok (rankWithinColors grouped, st.elfIds)

/-- AllColorTotals.all_grams_by_gem_color: totals per gem color over all
elves.  The required columns omit the elf fields, so the kept row set can
differ from the per-elf pass.  After the totals dict is saved, the generator
yields one row per color and looks each color up in COLOR_TO_COLORCAT; a
color without a category is an uncaught KeyError during save_list_of_dicts,
which we model by checking every aggregated color before returning. -/
def all_grams_by_gem_color (gem_rows : List (String × String))
    (ds de : Option Nat) (input : List Row) :
    Except Err (List (String × Dec)) :=
  match get_csv_bits [fGemType, fWeight, fQuantity] ds de input with
  | Except.error e => Except.error e
  | Except.ok kept =>
    match foldSteps (add_grams_for_gem_color gem_rows) [] kept with
    | Except.error e => Except.error e
    | Except.ok totals =>
      match (totals.map Prod.fst).find? (fun c => (odLookup c COLOR_TO_COLORCAT).isNone) with
      | some c => Except.error (Err.keyError c)
      | none => Except.ok totals

/-- One row of the final market-share matrix, in the order of fieldnames_out
of MarketShareAnalysisMatrix; a None numeric field is an Option none. -/
structure MatrixRow where
  elfName : String
  elfId : String
  colorCat : String
  gemColor : String
  tw2014 : Option Dec
  tw2015 : Option Dec
  ratio : Option Dec
  share : Option Dec
  colorRank : Option Nat
deriving DecidableEq

/-- MarketShareAnalysisMatrix.double_key_elf_color: the dict keyed by the pair
(Elf Name, Gem Color), a later row for the same pair overwriting the earlier
one. -/
def double_key_elf_color (rows : List MsRow) : List ((String × String) × MsRow) :=
  rows.foldl (fun m r => odInsert (r.elfName, r.gemColor) r m) []

/-- Python truthiness of a Decimal-or-None value: None and the zero Decimal
are falsy, every other Decimal is truthy. -/
def isTruthy (o : Option Dec) : Bool :=
  match o with
  | none => false
  | some q => if q.num = 0 then false else true

/-- The body of the cross-product loop of calculate_MarketShare_matrix for one
(elf, color) pair: a color without a category is skipped via the caught
KeyError (logged, not fatal); otherwise the row carries the identity fields,
the two period totals (None when the pair has no data in the period), the
ratio current over prior guarded by the truthiness of the prior total, the
share guarded by the truthiness of both sides, and the rank within the color
for the current period. -/
def matrixCell (k14 k15 : List ((String × String) × MsRow))
    (allco : List (String × Dec)) (elfIds : List (String × String))
    (elf color : String) : Option MatrixRow :=
  match odLookup color COLOR_TO_COLORCAT with
  | none => none
  | some cat =>
    let tw14 : Option Dec := (odLookup (elf, color) k14).map MsRow.totalWeight
    let e15 : Option MsRow := odLookup (elf, color) k15
    let tw15 : Option Dec := e15.map MsRow.totalWeight
    let ratio : Option Dec :=
      match e15 with
      | some m => if isTruthy tw14 then some (Dec.div m.totalWeight (tw14.getD (Dec.ofNat 0))) else none
      | none => none
    let tot : Option Dec := odLookup color allco
    let share : Option Dec :=
      if isTruthy tot && isTruthy tw15 then some (Dec.div (tw15.getD (Dec.ofNat 0)) (tot.getD (Dec.ofNat 0))) else none
    some (MatrixRow.mk elf ((odLookup elf elfIds).getD "") cat color
      tw14 tw15 ratio share (e15.map MsRow.rankInColor))

/-- MarketShareAnalysisMatrix.calculate_MarketShare_matrix: parse the two
reporting dates, build the gem-type lookup, run the per-elf pass over the
hard-coded window 2014-1-1 to 2015-1-1 and over the reporting window, run the
all-elves totals over the reporting window, and emit one row per element of
the cross product of the elves of the reporting window with the distinct
colors of the lookup file, skipping pairs whose color has no category. -/
def calculate_MarketShare_matrix (colo : List Row) (date_start date_end : String)
    (input : List Row) : Except Err (List MatrixRow) :=
  match parseDate date_start with
  | none => Except.error (Err.valueError date_start)
  | some ds =>
    match parseDate date_end with
    | none => Except.error (Err.valueError date_end)
    | some de =>
      match lookup_gem_rows colo with
      | Except.error e => Except.error e
      | Except.ok gem_rows =>
        match elf_grams_by_gem_color gem_rows (parseDate "2014-1-1")
            (parseDate "2015-1-1") input with
        | Except.error e => Except.error e
        | Except.ok p14 =>
          match elf_grams_by_gem_color gem_rows (some ds) (some de) input with
          | Except.error e => Except.error e
          | Except.ok p15 =>
            match all_grams_by_gem_color gem_rows (some ds) (some de) input with
            | Except.error e => Except.error e
            | Except.ok allco =>
              Except.ok
                ((listProd (p15.2.map Prod.fst) (dedupFirst (gem_rows.map Prod.snd))).filterMap
                  (fun ec =>
                    matrixCell (double_key_elf_color p14.1) (double_key_elf_color p15.1)
                      allco p15.2 ec.1 ec.2))

/-- Formalisation of the tie-break wording of the ranking claim, for
comparison with the code: whenever two output rows carry equal totals, the
row whose entity name is smaller must carry the smaller rank. -/
def specTiesAscendByName (out : List TgrRow) : Bool :=
  out.all (fun r1 =>
    out.all (fun r2 =>
      if r1.gold = r2.gold ∧ compare r1.name r2.name = Ordering.lt then
        decide (r1.rank < r2.rank)
      else true))

/-- Formalisation of the exact-quotient wording of the ratio claim, for
comparison with the code: the mathematically exact quotient of the two
Decimal values, with no context rounding. -/
def specExactDiv (a b : Dec) : Dec :=
  if b.num < 0 then Dec.norm (-(a.num * b.den)) (a.den * b.num.natAbs)
  else Dec.norm (a.num * b.den) (a.den * b.num.natAbs)

/-- Formalisation of the prior-period wording of the matrix claim, for
comparison with the code: the per-elf pass over the one-year window that ends
where the reporting window starts. -/
def specPriorYearWindowPass (gem_rows : List (String × String)) (ds : Nat)
    (input : List Row) : Except Err (List MsRow × List (String × String)) :=
  elf_grams_by_gem_color gem_rows (some (ds - 10000)) (some ds) input

/-- Test of a write_new_csv event for being the failure event. -/
def evIsFailure {α : Type} : Ev α → Bool
  | Ev.failure _ => true
  | _ => false

/-- Test of a write_new_csv event for being the file creation. -/
def evIsCreate {α : Type} : Ev α → Bool
  | Ev.createFile => true
  | _ => false

/-- Formalisation of the abort wording of the missing-column claim, for
comparison with the code: if the trace of a report run contains a failure,
then no output file was created during that run. -/
def specNoFileOnFailure {α : Type} (tr : List (Ev α)) : Bool :=
  if tr.any evIsFailure then !(tr.any evIsCreate) else true

/-- Formalisation of the share wording of the market-share claim, for
comparison with the code: the share field is null exactly when the current
total of the row or the all-elves total of the color is unavailable. -/
def specShareNullIffUnavailable (r : MatrixRow) (tot : Option Dec) : Bool :=
  r.share.isNone == (r.tw2015.isNone || tot.isNone)

/-- Gem-type lookup file with three gem types, one of whose colors has no
entry in the color-category table. -/
def exColo1 : List Row :=
  [[(fGemType, "Sapphire"), (fColor, "Cerulean")],
   [(fGemType, "Ruby"), (fColor, "Red")],
   [(fGemType, "Mystery"), (fColor, "Chartreuse")]]

/-- Mining file with two elves active in the 2015 reporting window and one
2014 row. -/
def exInput1 : List Row :=
  [[(fElfName, "Alice"), (fElfId, "E1"), (fGemType, "Sapphire"), (fWeight, "2"),
    (fQuantity, "3"), (fGold, "10"), (fMiningDate, "2015-02-01")],
   [(fElfName, "Bob"), (fElfId, "E2"), (fGemType, "Ruby"), (fWeight, "4"),
    (fQuantity, "1"), (fGold, "20"), (fMiningDate, "2015-03-01")],
   [(fElfName, "Alice"), (fElfId, "E1"), (fGemType, "Sapphire"), (fWeight, "5"),
    (fQuantity, "1"), (fGold, "30"), (fMiningDate, "2014-06-01")]]

/-- Mining file for the ranking tie-break: two elves with equal gold, the
alphabetically later one first in the file. -/
def exRowsTie : List Row :=
  [[(fElfName, "B"), (fGold, "50"), (fMiningDate, "2015-02-01")],
   [(fElfName, "A"), (fGold, "50"), (fMiningDate, "2015-02-02")],
   [(fElfName, "C"), (fGold, "30"), (fMiningDate, "2015-02-03")]]

/-- Mining file where the elves B and C tie on gold: the hash slots of B
and C in an 8-slot table are 3 and 2, so totals.items() yields C before B
although B both precedes C alphabetically and appears first in the file. -/
def exRowsTieBC : List Row :=
  [[(fElfName, "B"), (fGold, "50"), (fMiningDate, "2015-02-01")],
   [(fElfName, "C"), (fGold, "50"), (fMiningDate, "2015-02-02")]]

/-- Mining file whose header lacks the Mining Date column. -/
def exRowsNoDate : List Row :=
  [[(fElfName, "Alice"), (fGold, "10")]]

/-- One well-formed row, every required field of the gold report non-empty
and the date inside the default 2015 window. -/
def exRowKeep : Row :=
  [(fElfName, "Alice"), (fGold, "10"), (fMiningDate, "2015-02-01")]

/-- Gem-type lookup dict that only knows Ruby. -/
def exGemRowsRuby : List (String × String) :=
  [("Ruby", "Red")]

/-- Mining file with one kept row whose gem type Opal has no lookup entry. -/
def exRowsOpal : List Row :=
  [[(fElfName, "Zed"), (fElfId, "E9"), (fGemType, "Opal"), (fWeight, "1"),
    (fQuantity, "1"), (fMiningDate, "2015-02-01")]]

/-- Gem-type lookup file that only knows Ruby. -/
def exColoRuby : List Row :=
  [[(fGemType, "Ruby"), (fColor, "Red")]]

/-- Mining file where one elf mines a zero total weight of Ruby inside the
reporting window and another elf mines a positive weight of it. -/
def exRowsZero : List Row :=
  [[(fElfName, "Zed"), (fElfId, "E9"), (fGemType, "Ruby"), (fWeight, "0"),
    (fQuantity, "1"), (fMiningDate, "2015-02-02")],
   [(fElfName, "Yan"), (fElfId, "E8"), (fGemType, "Ruby"), (fWeight, "4"),
    (fQuantity, "1"), (fMiningDate, "2015-02-03")]]

/-- Mining file with one elf active across three years, used with a 2016
reporting window: calendar 2014 yields 6 grams, calendar 2015 yields 5. -/
def exRowsShift : List Row :=
  [[(fElfName, "Wren"), (fElfId, "W1"), (fGemType, "Ruby"), (fWeight, "2"),
    (fQuantity, "3"), (fMiningDate, "2014-06-01")],
   [(fElfName, "Wren"), (fElfId, "W1"), (fGemType, "Ruby"), (fWeight, "5"),
    (fQuantity, "1"), (fMiningDate, "2015-06-01")],
   [(fElfName, "Wren"), (fElfId, "W1"), (fGemType, "Ruby"), (fWeight, "7"),
    (fQuantity, "1"), (fMiningDate, "2016-02-01")]]

/-- Mining file where the same elf name appears with two different Elf IDs. -/
def exRowsDupId : List Row :=
  [[(fElfName, "Alice"), (fElfId, "OLD"), (fGemType, "Ruby"), (fWeight, "1"),
    (fQuantity, "1"), (fMiningDate, "2015-02-01")],
   [(fElfName, "Alice"), (fElfId, "NEW"), (fGemType, "Ruby"), (fWeight, "2"),
    (fQuantity, "1"), (fMiningDate, "2015-02-05")]]

/-- The kept and projected rows of the duplicate-id file in the 2015 window. -/
def exKeptDup : List Row :=
  [[(fElfName, "Alice"), (fElfId, "OLD"), (fGemType, "Ruby"), (fWeight, "1"),
    (fQuantity, "1")],
   [(fElfName, "Alice"), (fElfId, "NEW"), (fGemType, "Ruby"), (fWeight, "2"),
    (fQuantity, "1")]]

/-- The per-elf pass output on the duplicate-id file. -/
def exOutDup : List MsRow × List (String × String) :=
  ([MsRow.mk "Red" "Red" "Alice" "NEW" (Dec.ofNat 3) 1], [("Alice", "NEW")])

/-- The matrix output on exColo1 and exInput1 over the default window. -/
def exOut1 : List MatrixRow :=
  [MatrixRow.mk "Alice" "E1" "Blue" "Cerulean" (some (Dec.ofNat 5)) (some (Dec.ofNat 6))
    (some (Dec.norm 6 5)) (some (Dec.ofNat 1)) (some 1),
   MatrixRow.mk "Alice" "E1" "Red" "Red" none none none none none,
   MatrixRow.mk "Bob" "E2" "Blue" "Cerulean" none none none none none,
   MatrixRow.mk "Bob" "E2" "Red" "Red" none (some (Dec.ofNat 4)) none
    (some (Dec.ofNat 1)) (some 1)]

/-- The matrix row of the zero-weight elf on exRowsZero. -/
def exRowZedOut : MatrixRow :=
  MatrixRow.mk "Zed" "E9" "Red" "Red" none (some (Dec.ofNat 0)) none none (some 2)

/-- The matrix row of the positive-weight elf on exRowsZero. -/
def exRowYanOut : MatrixRow :=
  MatrixRow.mk "Yan" "E8" "Red" "Red" none (some (Dec.ofNat 4)) none
    (some (Dec.ofNat 1)) (some 1)

/-- The matrix output on exColoRuby and exRowsShift over the 2016 window;
the ratio 7 / 6 is the 28-digit context rounding of the quotient. -/
def exOutShift : List MatrixRow :=
  [MatrixRow.mk "Wren" "W1" "Red" "Red" (some (Dec.ofNat 6)) (some (Dec.ofNat 7))
    (some (Dec.norm 1166666666666666666666666667 (10 ^ 27))) (some (Dec.ofNat 1)) (some 1)]

/-- The matrix output on exColoRuby and exRowsDupId over the default window. -/
def exOutDupMat : List MatrixRow :=
  [MatrixRow.mk "Alice" "NEW" "Red" "Red" none (some (Dec.ofNat 3)) none
    (some (Dec.ofNat 1)) (some 1)]

/-- The gem-type lookup dict built from exColo1. -/
def exGemRows1 : List (String × String) :=
  [("Sapphire", "Cerulean"), ("Ruby", "Red"), ("Mystery", "Chartreuse")]

/-- The kept, projected rows of exInput1 in the 2015 reporting window. -/
def exKept1 : List Row :=
  [[(fElfName, "Alice"), (fElfId, "E1"), (fGemType, "Sapphire"), (fWeight, "2"),
    (fQuantity, "3")],
   [(fElfName, "Bob"), (fElfId, "E2"), (fGemType, "Ruby"), (fWeight, "4"),
    (fQuantity, "1")]]

/-- The per-elf pass of exInput1 over the hard-coded 2014 window. -/
def exP14 : List MsRow × List (String × String) :=
  ([MsRow.mk "Blue" "Cerulean" "Alice" "E1" (Dec.ofNat 5) 1], [("Alice", "E1")])

/-- The per-elf pass of exInput1 over the 2015 reporting window. -/
def exP15 : List MsRow × List (String × String) :=
  ([MsRow.mk "Blue" "Cerulean" "Alice" "E1" (Dec.ofNat 6) 1,
    MsRow.mk "Red" "Red" "Bob" "E2" (Dec.ofNat 4) 1],
   [("Alice", "E1"), ("Bob", "E2")])

/-- Default inclusive start date of the command line. -/
def exDateStart : String := "2015-01-01"

/-- Default exclusive end date of the command line. -/
def exDateEnd : String := "2015-07-01"

theorem Dec.le_total (a b : Dec) : a ≤ b ∨ b ≤ a :=
  Int.le_total (a.num * b.den) (b.num * a.den)

theorem Dec.le_trans {a b c : Dec} (h1 : a ≤ b) (h2 : b ≤ c) : a ≤ c := by
  have hc : (0 : ℤ) ≤ (c.den : ℤ) := Int.natCast_nonneg _
  have ha : (0 : ℤ) ≤ (a.den : ℤ) := Int.natCast_nonneg _
  have hb : (0 : ℤ) < (b.den : ℤ) := by exact_mod_cast b.den_pos
  have h1x : a.num * b.den ≤ b.num * a.den := h1
  have h2x : b.num * c.den ≤ c.num * b.den := h2
  have H1 := mul_le_mul_of_nonneg_right h1x hc
  have H2 := mul_le_mul_of_nonneg_right h2x ha
  have key : (b.den : ℤ) * (a.num * c.den) ≤ (b.den : ℤ) * (c.num * a.den) := by
    nlinarith [H1, H2]
  exact le_of_mul_le_mul_left key hb

theorem odLookup_odInsert_self {α β : Type} [DecidableEq α] (k : α) (v : β)
    (m : List (α × β)) : odLookup k (odInsert k v m) = some v := by
  induction m with
  | nil => simp [odInsert, odLookup]
  | cons p rest ih =>
    by_cases h : p.1 = k
    · simp [odInsert, odLookup, h]
    · simp only [odInsert, odLookup]
      rw [if_neg h, odLookup]
      rw [if_neg h]
      exact ih

theorem odLookup_odInsert_ne {α β : Type} [DecidableEq α] {k k2 : α} (v : β)
    (m : List (α × β)) (h : k2 ≠ k) :
    odLookup k (odInsert k2 v m) = odLookup k m := by
  induction m with
  | nil => simp [odInsert, odLookup, h]
  | cons p rest ih =>
    by_cases h2 : p.1 = k2
    · have h3 : ¬p.1 = k := fun h4 => h (h2 ▸ h4)
      simp [odInsert, odLookup, h2, h, h3]
    · simp only [odInsert, if_neg h2, odLookup]
      rw [ih]

theorem odLookup_mem {α β : Type} [DecidableEq α] {k : α} {v : β}
    {m : List (α × β)} (h : odLookup k m = some v) : (k, v) ∈ m := by
  induction m with
  | nil => simp [odLookup] at h
  | cons p rest ih =>
    rw [odLookup] at h
    by_cases h2 : p.1 = k
    · rw [if_pos h2] at h
      injection h with h4
      cases p
      cases h2
      cases h4
      exact List.mem_cons_self _ _
    · rw [if_neg h2] at h
      exact List.mem_cons_of_mem _ (ih h)

theorem mem_odInsert {α β : Type} [DecidableEq α] {x : α × β} {k : α} {v : β}
    {m : List (α × β)} (h : x ∈ odInsert k v m) : x = (k, v) ∨ x ∈ m := by
  induction m with
  | nil => simpa [odInsert] using h
  | cons p rest ih =>
    rw [odInsert] at h
    by_cases h2 : p.1 = k
    · rw [if_pos h2] at h
      rcases List.mem_cons.mp h with h3 | h3
      · exact Or.inl h3
      · exact Or.inr (List.mem_cons_of_mem _ h3)
    · rw [if_neg h2] at h
      rcases List.mem_cons.mp h with h3 | h3
      · exact Or.inr (h3 ▸ List.mem_cons_self _ _)
      · rcases ih h3 with h4 | h4
        · exact Or.inl h4
        · exact Or.inr (List.mem_cons_of_mem _ h4)

theorem odInsert_keys {α β : Type} [DecidableEq α] (k : α) (v : β)
    (m : List (α × β)) :
    (odInsert k v m).map Prod.fst =
      if k ∈ m.map Prod.fst then m.map Prod.fst else m.map Prod.fst ++ [k] := by
  induction m with
  | nil => simp [odInsert]
  | cons p rest ih =>
    by_cases h : p.1 = k
    · simp [odInsert, h]
    · have hne : ¬k = p.1 := fun hk => h hk.symm
      simp only [odInsert, if_neg h, List.map_cons, ih, List.mem_cons]
      by_cases h2 : k ∈ rest.map Prod.fst
      · simp [h2, hne]
      · simp [h2, hne]

theorem mem_dedupFirstAux {α : Type} [DecidableEq α] (l : List α) :
    ∀ (seen : List α) (x : α),
      x ∈ dedupFirstAux seen l ↔ x ∈ l ∧ x ∉ seen := by
  induction l with
  | nil => intro seen x; simp [dedupFirstAux]
  | cons y ys ih =>
    intro seen x
    rw [dedupFirstAux]
    by_cases h : y ∈ seen
    · rw [if_pos h, ih]
      simp only [List.mem_cons]
      constructor
      · rintro ⟨hx, hs⟩
        exact ⟨Or.inr hx, hs⟩
      · rintro ⟨hx | hx, hs⟩
        · subst hx; exact absurd h hs
        · exact ⟨hx, hs⟩
    · rw [if_neg h]
      simp only [List.mem_cons]
      constructor
      · rintro (rfl | hx2)
        · exact ⟨Or.inl rfl, h⟩
        · rcases (ih _ _).mp hx2 with ⟨h3, h4⟩
          refine ⟨Or.inr h3, fun h5 => h4 (List.mem_cons_of_mem _ h5)⟩
      · rintro ⟨hx | hx, hs⟩
        · exact Or.inl hx
        · by_cases hxy : x = y
          · exact Or.inl hxy
          · refine Or.inr ((ih _ _).mpr ⟨hx, fun h5 => ?_⟩)
            rcases List.mem_cons.mp h5 with h6 | h6
            · exact hxy h6
            · exact hs h6

theorem nodup_dedupFirstAux {α : Type} [DecidableEq α] (l : List α) :
    ∀ seen : List α, (dedupFirstAux seen l).Nodup := by
  induction l with
  | nil => intro seen; simp [dedupFirstAux]
  | cons y ys ih =>
    intro seen
    rw [dedupFirstAux]
    by_cases h : y ∈ seen
    · rw [if_pos h]; exact ih seen
    · rw [if_neg h]
      refine List.Nodup.cons (fun hy => ?_) (ih (y :: seen))
      exact ((mem_dedupFirstAux ys (y :: seen) y).mp hy).2 (List.mem_cons_self _ _)

theorem nodup_dedupFirst {α : Type} [DecidableEq α] (l : List α) :
    (dedupFirst l).Nodup :=
  nodup_dedupFirstAux l []

theorem dedupFirstAux_congr {α : Type} [DecidableEq α] (l : List α) :
    ∀ s1 s2 : List α, (∀ a, a ∈ s1 ↔ a ∈ s2) →
      dedupFirstAux s1 l = dedupFirstAux s2 l := by
  induction l with
  | nil => intro s1 s2 _; rfl
  | cons y ys ih =>
    intro s1 s2 hmem
    rw [dedupFirstAux, dedupFirstAux]
    by_cases h : y ∈ s1
    · rw [if_pos h, if_pos ((hmem y).mp h)]
      exact ih s1 s2 hmem
    · rw [if_neg h, if_neg (fun h2 => h ((hmem y).mpr h2))]
      refine congrArg _ (ih _ _ fun a => ?_)
      simp only [List.mem_cons]
      rw [hmem a]

theorem mem_sortInsertDesc {α : Type} (key : α → Dec) (x y : α) (l : List α) :
    y ∈ sortInsertDesc key x l ↔ y = x ∨ y ∈ l := by
  induction l with
  | nil => simp [sortInsertDesc]
  | cons z zs ih =>
    rw [sortInsertDesc]
    by_cases h : key x ≤ key z
    · rw [if_pos h]
      simp only [List.mem_cons, ih]
      tauto
    · rw [if_neg h]
      simp [List.mem_cons]

theorem length_sortInsertDesc {α : Type} (key : α → Dec) (x : α) (l : List α) :
    (sortInsertDesc key x l).length = l.length + 1 := by
  induction l with
  | nil => rfl
  | cons z zs ih =>
    rw [sortInsertDesc]
    by_cases h : key x ≤ key z
    · rw [if_pos h]
      simp [ih]
    · rw [if_neg h]
      simp

theorem pairwise_sortInsertDesc {α : Type} (key : α → Dec) (x : α) (l : List α)
    (h : List.Pairwise (fun a b => key b ≤ key a) l) :
    List.Pairwise (fun a b => key b ≤ key a) (sortInsertDesc key x l) := by
  induction l with
  | nil => simp [sortInsertDesc]
  | cons z zs ih =>
    rw [sortInsertDesc]
    rcases List.pairwise_cons.mp h with ⟨hz, hzs⟩
    by_cases h2 : key x ≤ key z
    · rw [if_pos h2]
      refine List.pairwise_cons.mpr ⟨fun y hy => ?_, ih hzs⟩
      rcases (mem_sortInsertDesc key x y zs).mp hy with rfl | hy2
      · exact h2
      · exact hz y hy2
    · rw [if_neg h2]
      have h3 : key z ≤ key x := (Dec.le_total (key x) (key z)).resolve_left h2
      refine List.pairwise_cons.mpr ⟨fun y hy => ?_, h⟩
      rcases List.mem_cons.mp hy with rfl | hy2
      · exact h3
      · exact Dec.le_trans (hz y hy2) h3

theorem mem_foldl_sortInsert {α : Type} (key : α → Dec) (l : List α) :
    ∀ (acc : List α) (y : α),
      y ∈ l.foldl (fun acc x => sortInsertDesc key x acc) acc ↔ y ∈ acc ∨ y ∈ l := by
  induction l with
  | nil => intro acc y; simp
  | cons z zs ih =>
    intro acc y
    rw [List.foldl_cons, ih]
    rw [mem_sortInsertDesc]
    simp only [List.mem_cons]
    tauto

theorem mem_sortDescBy {α : Type} (key : α → Dec) (l : List α) (y : α) :
    y ∈ sortDescBy key l ↔ y ∈ l := by
  rw [sortDescBy, mem_foldl_sortInsert]
  simp

theorem length_foldl_sortInsert {α : Type} (key : α → Dec) (l : List α) :
    ∀ acc : List α,
      (l.foldl (fun acc x => sortInsertDesc key x acc) acc).length =
        acc.length + l.length := by
  induction l with
  | nil => intro acc; simp
  | cons z zs ih =>
    intro acc
    rw [List.foldl_cons, ih, length_sortInsertDesc, List.length_cons]
    omega

theorem length_sortDescBy {α : Type} (key : α → Dec) (l : List α) :
    (sortDescBy key l).length = l.length := by
  rw [sortDescBy, length_foldl_sortInsert]
  simp

theorem pairwise_foldl_sortInsert {α : Type} (key : α → Dec) (l : List α) :
    ∀ acc : List α, List.Pairwise (fun a b => key b ≤ key a) acc →
      List.Pairwise (fun a b => key b ≤ key a)
        (l.foldl (fun acc x => sortInsertDesc key x acc) acc) := by
  induction l with
  | nil => intro acc h; simpa using h
  | cons z zs ih =>
    intro acc h
    rw [List.foldl_cons]
    exact ih _ (pairwise_sortInsertDesc key z acc h)

theorem pairwise_sortDescBy {α : Type} (key : α → Dec) (l : List α) :
    List.Pairwise (fun a b => key b ≤ key a) (sortDescBy key l) :=
  pairwise_foldl_sortInsert key l [] List.Pairwise.nil

theorem rankIndex_map_fst {α : Type} (l : List α) :
    ∀ i : Nat, (rankIndex i l).map Prod.fst = l := by
  induction l with
  | nil => intro i; rfl
  | cons x xs ih =>
    intro i
    rw [rankIndex, List.map_cons, ih]

theorem rankIndex_map_snd {α : Type} (l : List α) :
    ∀ i : Nat, (rankIndex i l).map Prod.snd = List.range' i l.length := by
  induction l with
  | nil => intro i; rfl
  | cons x xs ih =>
    intro i
    rw [rankIndex, List.map_cons, ih, List.length_cons, List.range'_succ]

theorem length_rankIndex {α : Type} (l : List α) :
    ∀ i : Nat, (rankIndex i l).length = l.length := by
  induction l with
  | nil => intro i; rfl
  | cons x xs ih =>
    intro i
    rw [rankIndex, List.length_cons, ih, List.length_cons]

theorem mem_rankIndex {α : Type} {l : List α} {p : α × Nat} :
    ∀ {i : Nat}, p ∈ rankIndex i l → p.1 ∈ l := by
  induction l with
  | nil => intro i h; simp [rankIndex] at h
  | cons x xs ih =>
    intro i h
    rw [rankIndex] at h
    rcases List.mem_cons.mp h with rfl | h2
    · exact List.mem_cons_self _ _
    · exact List.mem_cons_of_mem _ (ih h2)

theorem pairwise_rankIndex {α : Type} {R : α → α → Prop} {l : List α}
    (h : List.Pairwise R l) :
    ∀ i : Nat, List.Pairwise (fun p q : α × Nat => R p.1 q.1) (rankIndex i l) := by
  induction h with
  | nil => intro i; exact List.Pairwise.nil
  | cons hx _ ih =>
    intro i
    rw [rankIndex]
    refine List.pairwise_cons.mpr ⟨fun q hq => hx q.1 (mem_rankIndex hq), ih _⟩

/-- C2: two runs of the same report (the total-gold-rank report or the
market-share matrix report) on byte-identical input files with identical date
arguments produce byte-identical output files, including identical output row
order.  In this embedding each report is a pure function of the input rows
and the date strings, the incidental dict and set iteration orders being the
fixed deterministic function of the insertion sequence that the
association-list model captures; equal ordered row lists give byte-identical
csv files. -/
theorem c2_reports_deterministic (colo1 colo2 i1 i2 : List Row) (ds de : String)
    (hc : colo1 = colo2) (hi : i1 = i2) :
    tgrReport ds de i1 = tgrReport ds de i2 ∧
      calculate_MarketShare_matrix colo1 ds de i1 =
        calculate_MarketShare_matrix colo2 ds de i2 := by
  subst hc
  subst hi
  exact ⟨rfl, rfl⟩

/-- Witness for C2 at a concrete input. -/
theorem c2_witness :
    exColo1 = exColo1 ∧ exInput1 = exInput1 ∧
      (tgrReport exDateStart exDateEnd exInput1 = tgrReport exDateStart exDateEnd exInput1 ∧
        calculate_MarketShare_matrix exColo1 exDateStart exDateEnd exInput1 =
          calculate_MarketShare_matrix exColo1 exDateStart exDateEnd exInput1) :=
  ⟨rfl, rfl, c2_reports_deterministic exColo1 exColo1 exInput1 exInput1
    exDateStart exDateEnd rfl rfl⟩

/-- C3 amended: the ranker assigns exactly the dense ranks 1..N in descending
order of total; equal totals receive distinct consecutive ranks in the
iteration order of the totals dict, which is the hash-slot order of the
entity names in the CPython 2.7 string hash table, not in general ascending
by entity name (for the names A, B, C the slot order happens to be ascending
A, C, B only up to the tie - the names B and C alone land in slots 3 and 2,
so C precedes B). -/
theorem c3_ranks_dense_descending (ds de : Option Nat) (input : List Row)
    (out : List TgrRow) (h : rank_tgr_by_elf ds de input = Except.ok out) :
    out.map TgrRow.rank = List.range' 1 out.length ∧
      List.Pairwise (fun a b : TgrRow => b.gold ≤ a.gold) out := by
  cases hk : get_csv_bits [fElfName, fGold] ds de input with
  | error e => simp [rank_tgr_by_elf, hk] at h
  | ok kept =>
    cases hf : foldSteps addGold (pyEmpty Dec) kept with
    | error e => simp [rank_tgr_by_elf, hk, hf] at h
    | ok totals =>
      simp only [rank_tgr_by_elf, hk, hf] at h
      injection h with h2
      subst h2
      constructor
      · rw [List.map_map]
        have hcomp : (TgrRow.rank ∘ fun pr : (String × Dec) × Nat =>
            TgrRow.mk pr.1.1 pr.1.2 pr.2) = Prod.snd := rfl
        rw [hcomp]
        simp only [denseRank]
        rw [rankIndex_map_snd, List.length_map, length_rankIndex]
      · rw [List.pairwise_map]
        exact pairwise_rankIndex (pairwise_sortDescBy (fun p => p.2) (pyItems totals)) 1

/-- Witness for C3 at a concrete input: on the tied names A and B the
hash-slot order (A in slot 0, C in slot 2, B in slot 3) makes the stable
descending sort rank A first. -/
theorem c3_witness :
    rank_tgr_by_elf (some 20150101) (some 20150701) exRowsTie =
      Except.ok [TgrRow.mk "A" (Dec.ofNat 50) 1, TgrRow.mk "B" (Dec.ofNat 50) 2,
        TgrRow.mk "C" (Dec.ofNat 30) 3] ∧
      ([TgrRow.mk "A" (Dec.ofNat 50) 1, TgrRow.mk "B" (Dec.ofNat 50) 2,
          TgrRow.mk "C" (Dec.ofNat 30) 3].map TgrRow.rank =
        List.range' 1 ([TgrRow.mk "A" (Dec.ofNat 50) 1, TgrRow.mk "B" (Dec.ofNat 50) 2,
          TgrRow.mk "C" (Dec.ofNat 30) 3] : List TgrRow).length ∧
        List.Pairwise (fun a b : TgrRow => b.gold ≤ a.gold)
          [TgrRow.mk "A" (Dec.ofNat 50) 1, TgrRow.mk "B" (Dec.ofNat 50) 2,
            TgrRow.mk "C" (Dec.ofNat 30) 3]) :=
  ⟨by decide, c3_ranks_dense_descending (some 20150101) (some 20150701) exRowsTie _ (by decide)⟩

/-- Counterexample for C3 as stated: for equal totals 50 carried by the
entities B and C, the report ranks C first and B second (their hash slots
are 2 and 3), so equal totals are not tie-broken in ascending entity
order. -/
theorem c3_counterexample :
    tgrReport exDateStart exDateEnd exRowsTieBC =
      Except.ok [TgrRow.mk "C" (Dec.ofNat 50) 1, TgrRow.mk "B" (Dec.ofNat 50) 2] ∧
      specTiesAscendByName [TgrRow.mk "C" (Dec.ofNat 50) 1,
        TgrRow.mk "B" (Dec.ofNat 50) 2] = false :=
  ⟨by decide, by decide⟩

theorem foldSteps_msStep_gem_known (gem_rows : List (String × String)) :
    ∀ (kept : List Row) (st st2 : MsState),
      foldSteps (msStep gem_rows) st kept = Except.ok st2 →
      ∀ r ∈ kept, (odLookup (getField r fGemType) gem_rows).isSome := by
  intro kept
  induction kept with
  | nil => intro st st2 _ r hr; cases hr
  | cons r0 rs ih =>
    intro st st2 h r hr
    rw [foldSteps] at h
    cases hm : msStep gem_rows st r0 with
    | error e => rw [hm] at h; cases h
    | ok st1 =>
      rw [hm] at h
      rcases List.mem_cons.mp hr with rfl | hr2
      · unfold msStep at hm
        cases hg : add_grams_for_gem_color gem_rows
            ((odLookup (getField r fElfName) st.perElf).getD []) r with
        | error e => rw [hg] at hm; cases hm
        | ok cm =>
          unfold add_grams_for_gem_color at hg
          cases hl : odLookup (getField r fGemType) gem_rows with
          | none => rw [hl] at hg; cases hg
          | some c => simp
      · exact ih st1 st2 h r hr2

/-- C4 amended: a mining row whose Gem Type has no entry in the gem-color
lookup makes the aggregation raise an uncaught KeyError naming that gem type,
aborting the whole report; no warning-and-skip happens.  Equivalently, the
per-elf pass succeeds only when every kept row has a known gem type. -/
theorem c4_unknown_gem_type_is_fatal (gem_rows : List (String × String))
    (ds de : Option Nat) (input kept : List Row)
    (out : List MsRow × List (String × String))
    (h1 : get_csv_bits msFieldnamesIn ds de input = Except.ok kept)
    (h2 : elf_grams_by_gem_color gem_rows ds de input = Except.ok out) :
    ∀ r ∈ kept, (odLookup (getField r fGemType) gem_rows).isSome := by
  simp only [elf_grams_by_gem_color, h1] at h2
  cases hf : foldSteps (msStep gem_rows) (MsState.mk [] []) kept with
  | error e =>
    simp only [hf] at h2
    exact Except.noConfusion h2
  | ok st => exact foldSteps_msStep_gem_known gem_rows kept _ _ hf

/-- Witness for C4 at a concrete input whose gem types are all known. -/
theorem c4_witness :
    get_csv_bits msFieldnamesIn (some 20150101) (some 20150701) exRowsDupId =
      Except.ok exKeptDup ∧
      elf_grams_by_gem_color exGemRowsRuby (some 20150101) (some 20150701) exRowsDupId =
        Except.ok exOutDup ∧
      ∀ r ∈ exKeptDup, (odLookup (getField r fGemType) exGemRowsRuby).isSome :=
  ⟨by decide, by decide,
    c4_unknown_gem_type_is_fatal exGemRowsRuby (some 20150101) (some 20150701)
      exRowsDupId exKeptDup exOutDup (by decide) (by decide)⟩

/-- Counterexample for C4 as stated: one kept row with the unknown gem type
Opal makes the aggregation pass return the uncaught KeyError instead of
skipping the row and continuing. -/
theorem c4_counterexample :
    elf_grams_by_gem_color exGemRowsRuby (some 20150101) (some 20150701) exRowsOpal =
      Except.error (Err.keyError "Opal") := by
  decide

/-- C5 amended: when a required column is absent, the report aborts with an
uncaught KeyError whose message names that column (a non-zero exit), but the
output file has already been created and holds the header row at the moment
of the failure, because write_new_csv opens the destination before reading
any input row. -/
theorem c5_abort_after_file_creation (a b : String) (d1 d2 : Nat)
    (input : List Row) (e : Err)
    (h1 : parseDate a = some d1) (h2 : parseDate b = some d2)
    (h3 : rank_tgr_by_elf (some d1) (some d2) input = Except.error e) :
    make_rank_by_tgr a b input = [Ev.createFile, Ev.headerRow, Ev.failure e] := by
  simp only [make_rank_by_tgr, h1, h2, write_new_csv, h3]

/-- Witness for C5 at a concrete failing input. -/
theorem c5_witness :
    parseDate exDateStart = some 20150101 ∧ parseDate exDateEnd = some 20150701 ∧
      rank_tgr_by_elf (some 20150101) (some 20150701) exRowsNoDate =
        Except.error (Err.keyError fMiningDate) ∧
      make_rank_by_tgr exDateStart exDateEnd exRowsNoDate =
        [Ev.createFile, Ev.headerRow, Ev.failure (Err.keyError fMiningDate)] :=
  ⟨by decide, by decide, by decide,
    c5_abort_after_file_creation exDateStart exDateEnd 20150101 20150701
      exRowsNoDate (Err.keyError fMiningDate) (by decide) (by decide) (by decide)⟩

/-- Counterexample for C5 as stated: on an input whose header lacks the
Mining Date column the run fails with a KeyError naming that column, yet the
trace shows the output file was created (and the header written) before the
failure, refuting that no output file exists at that moment. -/
theorem c5_counterexample :
    make_rank_by_tgr exDateStart exDateEnd exRowsNoDate =
      [Ev.createFile, Ev.headerRow, Ev.failure (Err.keyError fMiningDate)] ∧
      specNoFileOnFailure (make_rank_by_tgr exDateStart exDateEnd exRowsNoDate) = false :=
  ⟨by decide, by decide⟩

theorem checkNonEmpty_of_present :
    ∀ (cs : List String) (row : Row), (∀ c ∈ cs, (odLookup c row).isSome) →
      checkNonEmpty cs row =
        Except.ok (decide (∀ c ∈ cs, odLookup c row ≠ some "")) := by
  intro cs
  induction cs with
  | nil => intro row _; simp [checkNonEmpty]
  | cons c cs ih =>
    intro row hpres
    obtain ⟨v, hv⟩ :=
      Option.isSome_iff_exists.mp (hpres c (List.mem_cons_self _ _))
    by_cases hve : v = ""
    · subst hve
      have hnot : ¬∀ c2 ∈ c :: cs, odLookup c2 row ≠ some "" := fun hall =>
        hall c (List.mem_cons_self _ _) hv
      rw [checkNonEmpty, hv]
      simp [hnot]
      intro h
      exact absurd hv h
    · have hiff : (∀ c2 ∈ c :: cs, odLookup c2 row ≠ some "") ↔
          (∀ c2 ∈ cs, odLookup c2 row ≠ some "") := by
        constructor
        · intro hall c2 hc2
          exact hall c2 (List.mem_cons_of_mem _ hc2)
        · intro hall c2 hc2
          rcases List.mem_cons.mp hc2 with rfl | hc3
          · rw [hv]
            intro hcon
            exact hve (Option.some.inj hcon)
          · exact hall c2 hc3
      rw [checkNonEmpty, hv]
      simp only [hve, if_false, ite_false,
        ih row (fun c2 hc2 => hpres c2 (List.mem_cons_of_mem _ hc2))]
      simp [hiff]
      intro _
      rw [hv]
      exact fun hcon => hve (Option.some.inj hcon)

/-- C6 amended: with a date window supplied, keep_me keeps a row whose
columns are all present exactly when every required field and the date are
non-empty and the parsed date d satisfies start less-or-equal d strictly-less
end; but when no window is supplied the filter does not keep every such row:
ordering the parsed date against the None start bound raises the TypeError
of CPython 2.7, which the try block does not catch, so the first row passing
the non-empty checks aborts the run.  The base row filter is never unbounded
(the one all-time reader, GemTypeLookup, overrides keep_me to keep
everything). -/
theorem c6_keep_me_characterization (fields : List String) (row : Row)
    (dstr : String) (d s e : Nat)
    (hpres : ∀ c ∈ fields ++ [fMiningDate], (odLookup c row).isSome)
    (hdate : odLookup fMiningDate row = some dstr)
    (hparse : parseDate dstr = some d) :
    (keep_me fields (some s) (some e) row = Except.ok true ↔
      ((∀ c ∈ fields ++ [fMiningDate], odLookup c row ≠ some "") ∧ s ≤ d ∧ d < e)) ∧
    ((∀ c ∈ fields ++ [fMiningDate], odLookup c row ≠ some "") →
      keep_me fields none none row = Except.error (Err.typeError pyDateNoneCmpMsg)) := by
  have hch := checkNonEmpty_of_present (fields ++ [fMiningDate]) row hpres
  constructor
  · by_cases hne : ∀ c ∈ fields ++ [fMiningDate], odLookup c row ≠ some ""
    · have hdP : decide (∀ c ∈ fields ++ [fMiningDate], odLookup c row ≠ some "") = true :=
        decide_eq_true hne
      simp only [keep_me, hch, hdP, hdate, hparse]
      constructor
      · intro hkeep
        by_cases h1 : d < s
        · simp [h1] at hkeep
        · by_cases h2 : e ≤ d
          · simp [h1, h2] at hkeep
          · exact ⟨hne, by omega, by omega⟩
      · rintro ⟨_, hsd, hde⟩
        have h1 : ¬d < s := by omega
        have h2 : ¬e ≤ d := by omega
        simp [h1, h2]
    · have hdP : decide (∀ c ∈ fields ++ [fMiningDate], odLookup c row ≠ some "") = false :=
        decide_eq_false hne
      simp only [keep_me, hch, hdP]
      constructor
      · intro hkeep
        simp at hkeep
      · rintro ⟨hall, _, _⟩
        exact absurd hall hne
  · intro hne
    have hdP : decide (∀ c ∈ fields ++ [fMiningDate], odLookup c row ≠ some "") = true :=
      decide_eq_true hne
    simp only [keep_me, hch, hdP, hdate, hparse]

/-- Witness for C6 at a concrete row inside the default window. -/
theorem c6_witness :
    (∀ c ∈ [fElfName, fGold] ++ [fMiningDate], (odLookup c exRowKeep).isSome) ∧
      odLookup fMiningDate exRowKeep = some "2015-02-01" ∧
      parseDate "2015-02-01" = some 20150201 ∧
      ((keep_me [fElfName, fGold] (some 20150101) (some 20150701) exRowKeep =
          Except.ok true ↔
        ((∀ c ∈ [fElfName, fGold] ++ [fMiningDate], odLookup c exRowKeep ≠ some "") ∧
          20150101 ≤ 20150201 ∧ 20150201 < 20150701)) ∧
      ((∀ c ∈ [fElfName, fGold] ++ [fMiningDate], odLookup c exRowKeep ≠ some "") →
        keep_me [fElfName, fGold] none none exRowKeep =
          Except.error (Err.typeError pyDateNoneCmpMsg))) :=
  ⟨by decide, by decide, by decide,
    c6_keep_me_characterization [fElfName, fGold] exRowKeep "2015-02-01"
      20150201 20150101 20150701 (by decide) (by decide) (by decide)⟩

/-- Counterexample for C6 as stated: with no date window supplied, a row with
every required field non-empty and a well-formed date makes keep_me raise
the uncaught TypeError of the date-versus-None comparison instead of keeping
the row, refuting that the filter is unbounded and keeps every such row. -/
theorem c6_counterexample :
    keep_me [fElfName, fGold] none none exRowKeep =
      Except.error (Err.typeError pyDateNoneCmpMsg) ∧
      checkNonEmpty ([fElfName, fGold] ++ [fMiningDate]) exRowKeep = Except.ok true ∧
      parseDate "2015-02-01" = some 20150201 :=
  ⟨by decide, by decide, by decide⟩

theorem calcMatrix_ok_shape (colo : List Row) (a b : String) (input : List Row)
    (out : List MatrixRow)
    (h : calculate_MarketShare_matrix colo a b input = Except.ok out) :
    ∃ da db gem_rows p14 p15 allco,
      parseDate a = some da ∧ parseDate b = some db ∧
      lookup_gem_rows colo = Except.ok gem_rows ∧
      elf_grams_by_gem_color gem_rows (parseDate "2014-1-1") (parseDate "2015-1-1")
        input = Except.ok p14 ∧
      elf_grams_by_gem_color gem_rows (some da) (some db) input = Except.ok p15 ∧
      all_grams_by_gem_color gem_rows (some da) (some db) input = Except.ok allco ∧
      out = (listProd (p15.2.map Prod.fst) (dedupFirst (gem_rows.map Prod.snd))).filterMap
        (fun ec => matrixCell (double_key_elf_color p14.1) (double_key_elf_color p15.1)
          allco p15.2 ec.1 ec.2) := by
  cases hda : parseDate a with
  | none => simp [calculate_MarketShare_matrix, hda] at h
  | some da =>
    cases hdb : parseDate b with
    | none => simp [calculate_MarketShare_matrix, hda, hdb] at h
    | some db =>
      cases hg : lookup_gem_rows colo with
      | error e => simp [calculate_MarketShare_matrix, hda, hdb, hg] at h
      | ok gem_rows =>
        cases h14 : elf_grams_by_gem_color gem_rows (parseDate "2014-1-1")
            (parseDate "2015-1-1") input with
        | error e => simp [calculate_MarketShare_matrix, hda, hdb, hg, h14] at h
        | ok p14 =>
          cases h15 : elf_grams_by_gem_color gem_rows (some da) (some db) input with
          | error e => simp [calculate_MarketShare_matrix, hda, hdb, hg, h14, h15] at h
          | ok p15 =>
            cases hallco : all_grams_by_gem_color gem_rows (some da) (some db) input with
            | error e =>
              simp [calculate_MarketShare_matrix, hda, hdb, hg, h14, h15, hallco] at h
            | ok allco =>
              simp only [calculate_MarketShare_matrix, hda, hdb, hg, h14, h15, hallco] at h
              injection h with h2
              exact ⟨da, db, gem_rows, p14, p15, allco, rfl, rfl, rfl, h14, h15, hallco, h2.symm⟩

theorem matrixCell_fields (k14 k15 : List ((String × String) × MsRow))
    (allco : List (String × Dec)) (elfIds : List (String × String))
    (elf color : String) (r : MatrixRow)
    (h : matrixCell k14 k15 allco elfIds elf color = some r) :
    r.elfName = elf ∧ r.gemColor = color ∧
    odLookup color COLOR_TO_COLORCAT = some r.colorCat ∧
    r.elfId = (odLookup elf elfIds).getD "" ∧
    r.tw2014 = (odLookup (elf, color) k14).map MsRow.totalWeight ∧
    r.tw2015 = (odLookup (elf, color) k15).map MsRow.totalWeight ∧
    r.colorRank = (odLookup (elf, color) k15).map MsRow.rankInColor ∧
    r.ratio = (match odLookup (elf, color) k15 with
      | some m =>
        if isTruthy ((odLookup (elf, color) k14).map MsRow.totalWeight) then
          some (Dec.div m.totalWeight
            (((odLookup (elf, color) k14).map MsRow.totalWeight).getD (Dec.ofNat 0)))
        else none
      | none => none) ∧
    r.share = (if isTruthy (odLookup color allco) &&
        isTruthy ((odLookup (elf, color) k15).map MsRow.totalWeight) then
      some (Dec.div (((odLookup (elf, color) k15).map MsRow.totalWeight).getD (Dec.ofNat 0))
        ((odLookup color allco).getD (Dec.ofNat 0)))
    else none) := by
  cases hcat : odLookup color COLOR_TO_COLORCAT with
  | none => simp [matrixCell, hcat] at h
  | some cat =>
    simp only [matrixCell, hcat] at h
    injection h with h2
    subst h2
    exact ⟨rfl, rfl, rfl, rfl, rfl, rfl, rfl, rfl, rfl⟩

/-- C7 amended: in every matrix output row, the 2015-vs-2014 field equals
the Decimal quotient of the current-period total by the prior-period total -
the exact quotient rounded to the 28 significant digits of the default
context, hence exact only when the quotient terminates within 28 digits -
when both totals are present and the prior total is nonzero, and is null
when the prior total is missing or zero; the division is guarded by the
truthiness test, so no division-by-zero is ever raised. -/
theorem c7_ratio_field (colo : List Row) (a b : String) (input : List Row)
    (out : List MatrixRow)
    (h : calculate_MarketShare_matrix colo a b input = Except.ok out) :
    ∀ r ∈ out,
      (∀ c p, r.tw2015 = some c → r.tw2014 = some p → p.num ≠ 0 →
        r.ratio = some (Dec.div c p)) ∧
      (r.tw2014 = none → r.ratio = none) ∧
      (∀ p, r.tw2014 = some p → p.num = 0 → r.ratio = none) := by
  obtain ⟨da, db, gem_rows, p14, p15, allco, hda, hdb, hg, h14, h15, hallco, hout⟩ :=
    calcMatrix_ok_shape colo a b input out h
  subst hout
  intro r hr
  obtain ⟨ec, hec, hcell⟩ := List.mem_filterMap.mp hr
  obtain ⟨hname, hcolor, hcat, hid, h2014, h2015, hrank, hratio, hshare⟩ :=
    matrixCell_fields _ _ _ _ _ _ _ hcell
  refine ⟨?_, ?_, ?_⟩
  · intro c p hc hp hpz
    rw [hratio]
    cases h15l : odLookup (ec.1, ec.2) (double_key_elf_color p15.1) with
    | none => rw [h2015, h15l] at hc; simp at hc
    | some m =>
      rw [h2015, h15l] at hc
      have hcm : m.totalWeight = c := by simpa using hc
      cases h14l : odLookup (ec.1, ec.2) (double_key_elf_color p14.1) with
      | none => rw [h2014, h14l] at hp; simp at hp
      | some m14 =>
        rw [h2014, h14l] at hp
        have hpm : m14.totalWeight = p := by simpa using hp
        simp [h15l, h14l, isTruthy, hpm, hpz, hcm]
  · intro hp
    rw [hratio]
    cases h15l : odLookup (ec.1, ec.2) (double_key_elf_color p15.1) with
    | none => simp [h15l]
    | some m =>
      rw [h2014] at hp
      have h14n : odLookup (ec.1, ec.2) (double_key_elf_color p14.1) = none := by
        cases h14l : odLookup (ec.1, ec.2) (double_key_elf_color p14.1) with
        | none => rfl
        | some m14 => rw [h14l] at hp; simp at hp
      simp [h15l, h14n, isTruthy]
  · intro p hp hz
    rw [hratio]
    cases h15l : odLookup (ec.1, ec.2) (double_key_elf_color p15.1) with
    | none => simp [h15l]
    | some m =>
      rw [h2014] at hp
      cases h14l : odLookup (ec.1, ec.2) (double_key_elf_color p14.1) with
      | none => rw [h14l] at hp; simp at hp
      | some m14 =>
        rw [h14l] at hp
        have hpm : m14.totalWeight = p := by simpa using hp
        simp [h15l, h14l, isTruthy, hpm, hz]

/-- Witness for C7 at a concrete input with a populated ratio. -/
theorem c7_witness :
    calculate_MarketShare_matrix exColo1 exDateStart exDateEnd exInput1 =
      Except.ok exOut1 ∧
      ∀ r ∈ exOut1,
        (∀ c p, r.tw2015 = some c → r.tw2014 = some p → p.num ≠ 0 →
          r.ratio = some (Dec.div c p)) ∧
        (r.tw2014 = none → r.ratio = none) ∧
        (∀ p, r.tw2014 = some p → p.num = 0 → r.ratio = none) :=
  ⟨by decide, c7_ratio_field exColo1 exDateStart exDateEnd exInput1 exOut1 (by decide)⟩

/-- Counterexample for C7 as stated: on totals 7 over 6 the program's
ratio field holds the context rounding 1.166666666666666666666666667 of the
quotient, which differs from the exact quotient 7 / 6, refuting that the
field is the exact quotient. -/
theorem c7_counterexample :
    calculate_MarketShare_matrix exColoRuby "2016-01-01" "2016-07-01" exRowsShift =
      Except.ok exOutShift ∧
      exOutShift.map MatrixRow.ratio =
        [some (Dec.norm 1166666666666666666666666667 (10 ^ 27))] ∧
      Dec.div (Dec.ofNat 7) (Dec.ofNat 6) =
        Dec.norm 1166666666666666666666666667 (10 ^ 27) ∧
      Dec.norm 1166666666666666666666666667 (10 ^ 27) ≠
        specExactDiv (Dec.ofNat 7) (Dec.ofNat 6) :=
  ⟨by decide, by decide, by decide, by decide⟩

/-- C8 amended: in every matrix output row, the 2015 market-share field is
the current-period total divided by the all-elves total of the color over
the reporting window (a Decimal division, rounded by the default context),
guarded by Python truthiness: it is null when either side is missing or
zero, not only when one is unavailable. -/
theorem c8_share_field (colo : List Row) (a b : String) (da db : Nat)
    (input : List Row) (out : List MatrixRow)
    (gem_rows : List (String × String)) (allco : List (String × Dec))
    (hda : parseDate a = some da) (hdb : parseDate b = some db)
    (hg : lookup_gem_rows colo = Except.ok gem_rows)
    (hallco : all_grams_by_gem_color gem_rows (some da) (some db) input = Except.ok allco)
    (h : calculate_MarketShare_matrix colo a b input = Except.ok out) :
    ∀ r ∈ out,
      r.share = (if isTruthy (odLookup r.gemColor allco) && isTruthy r.tw2015 then
        some (Dec.div (r.tw2015.getD (Dec.ofNat 0))
          ((odLookup r.gemColor allco).getD (Dec.ofNat 0)))
      else none) := by
  obtain ⟨da2, db2, gem_rows2, p14, p15, allco2, hda2, hdb2, hg2, h14, h15, hallco2, hout⟩ :=
    calcMatrix_ok_shape colo a b input out h
  have eda : da2 = da := Option.some.inj (hda2.symm.trans hda)
  subst eda
  have edb : db2 = db := Option.some.inj (hdb2.symm.trans hdb)
  subst edb
  have eg : gem_rows2 = gem_rows := Except.ok.inj (hg2.symm.trans hg)
  subst eg
  have ea : allco2 = allco := Except.ok.inj (hallco2.symm.trans hallco)
  subst ea
  subst hout
  intro r hr
  obtain ⟨ec, hec, hcell⟩ := List.mem_filterMap.mp hr
  obtain ⟨hname, hcolor, hcat, hid, h2014, h2015, hrank, hratio, hshare⟩ :=
    matrixCell_fields _ _ _ _ _ _ _ hcell
  rw [hshare, hcolor, h2015]

/-- Witness for C8 at a concrete input. -/
theorem c8_witness :
    parseDate exDateStart = some 20150101 ∧ parseDate exDateEnd = some 20150701 ∧
      lookup_gem_rows exColoRuby = Except.ok [("Ruby", "Red")] ∧
      all_grams_by_gem_color [("Ruby", "Red")] (some 20150101) (some 20150701)
        exRowsZero = Except.ok [("Red", Dec.ofNat 4)] ∧
      calculate_MarketShare_matrix exColoRuby exDateStart exDateEnd exRowsZero =
        Except.ok [exRowZedOut, exRowYanOut] ∧
      ∀ r ∈ [exRowZedOut, exRowYanOut],
        r.share = (if isTruthy (odLookup r.gemColor [("Red", Dec.ofNat 4)]) &&
            isTruthy r.tw2015 then
          some (Dec.div (r.tw2015.getD (Dec.ofNat 0))
            ((odLookup r.gemColor [("Red", Dec.ofNat 4)]).getD (Dec.ofNat 0)))
        else none) :=
  ⟨by decide, by decide, by decide, by decide, by decide,
    c8_share_field exColoRuby exDateStart exDateEnd 20150101 20150701 exRowsZero
      [exRowZedOut, exRowYanOut] [("Ruby", "Red")] [("Red", Dec.ofNat 4)]
      (by decide) (by decide) (by decide) (by decide) (by decide)⟩

/-- Counterexample for C8 as stated: the zero-weight elf has a present
current-period total (zero) and the color has a present nonzero all-elves
total, yet the share field is null, refuting that the share is null exactly
when either side is unavailable. -/
theorem c8_counterexample :
    calculate_MarketShare_matrix exColoRuby exDateStart exDateEnd exRowsZero =
      Except.ok [exRowZedOut, exRowYanOut] ∧
      all_grams_by_gem_color [("Ruby", "Red")] (some 20150101) (some 20150701)
        exRowsZero = Except.ok [("Red", Dec.ofNat 4)] ∧
      exRowZedOut.tw2015 = some (Dec.ofNat 0) ∧
      exRowZedOut.share = none ∧
      specShareNullIffUnavailable exRowZedOut (some (Dec.ofNat 4)) = false :=
  ⟨by decide, by decide, by decide, by decide, by decide⟩

/-- C9 amended: the prior-period totals of the matrix are always aggregated
over the fixed window 2014-01-01 (inclusive) to 2015-01-01 (exclusive),
whatever reporting window is supplied; this equals the one-year window
immediately preceding the reporting window only when the reporting window
starts on 2015-01-01. -/
theorem c9_prior_window_is_fixed_2014 (colo : List Row) (a b : String)
    (input : List Row) (out : List MatrixRow)
    (gem_rows : List (String × String)) (p14 : List MsRow × List (String × String))
    (hg : lookup_gem_rows colo = Except.ok gem_rows)
    (h14 : elf_grams_by_gem_color gem_rows (parseDate "2014-1-1") (parseDate "2015-1-1")
      input = Except.ok p14)
    (h : calculate_MarketShare_matrix colo a b input = Except.ok out) :
    ∀ r ∈ out,
      r.tw2014 = (odLookup (r.elfName, r.gemColor)
        (double_key_elf_color p14.1)).map MsRow.totalWeight := by
  obtain ⟨da2, db2, gem_rows2, p14two, p15, allco2, hda2, hdb2, hg2, h14x, h15, hallco2, hout⟩ :=
    calcMatrix_ok_shape colo a b input out h
  have eg : gem_rows2 = gem_rows := Except.ok.inj (hg2.symm.trans hg)
  subst eg
  have e14 : p14two = p14 := Except.ok.inj (h14x.symm.trans h14)
  subst e14
  subst hout
  intro r hr
  obtain ⟨ec, hec, hcell⟩ := List.mem_filterMap.mp hr
  obtain ⟨hname, hcolor, hcat, hid, h2014, h2015, hrank, hratio, hshare⟩ :=
    matrixCell_fields _ _ _ _ _ _ _ hcell
  rw [h2014, hname, hcolor]

/-- Witness for C9 at a concrete input. -/
theorem c9_witness :
    lookup_gem_rows exColoRuby = Except.ok [("Ruby", "Red")] ∧
      elf_grams_by_gem_color [("Ruby", "Red")] (parseDate "2014-1-1")
        (parseDate "2015-1-1") exRowsShift =
        Except.ok ([MsRow.mk "Red" "Red" "Wren" "W1" (Dec.ofNat 6) 1], [("Wren", "W1")]) ∧
      calculate_MarketShare_matrix exColoRuby "2016-01-01" "2016-07-01" exRowsShift =
        Except.ok exOutShift ∧
      ∀ r ∈ exOutShift,
        r.tw2014 = (odLookup (r.elfName, r.gemColor)
          (double_key_elf_color [MsRow.mk "Red" "Red" "Wren" "W1" (Dec.ofNat 6) 1])).map
            MsRow.totalWeight :=
  ⟨by decide, by decide, by decide,
    c9_prior_window_is_fixed_2014 exColoRuby "2016-01-01" "2016-07-01" exRowsShift
      exOutShift [("Ruby", "Red")]
      ([MsRow.mk "Red" "Red" "Wren" "W1" (Dec.ofNat 6) 1], [("Wren", "W1")])
      (by decide) (by decide) (by decide)⟩

/-- Counterexample for C9 as stated: with the reporting window starting
2016-01-01, the Total Weight 2014 column still holds the calendar-2014 total
6, while the total over the immediately-preceding-year window (calendar 2015)
is 5. -/
theorem c9_counterexample :
    parseDate "2016-01-01" = some 20160101 ∧
      calculate_MarketShare_matrix exColoRuby "2016-01-01" "2016-07-01" exRowsShift =
        Except.ok exOutShift ∧
      (exOutShift.map MatrixRow.tw2014) = [some (Dec.ofNat 6)] ∧
      specPriorYearWindowPass [("Ruby", "Red")] 20160101 exRowsShift =
        Except.ok ([MsRow.mk "Red" "Red" "Wren" "W1" (Dec.ofNat 5) 1], [("Wren", "W1")]) ∧
      (Dec.ofNat 6 : Dec) ≠ Dec.ofNat 5 :=
  ⟨by decide, by decide, by decide, by decide, by decide⟩

theorem msStep_ok_elfIds (g : List (String × String)) (st : MsState) (row : Row)
    (st1 : MsState) (h : msStep g st row = Except.ok st1) :
    st1.elfIds = odInsert (getField row fElfName) (getField row fElfId) st.elfIds := by
  unfold msStep at h
  cases hg : add_grams_for_gem_color g
      ((odLookup (getField row fElfName) st.perElf).getD []) row with
  | error e => rw [hg] at h; cases h
  | ok cm =>
    rw [hg] at h
    injection h with h2
    rw [← h2]

theorem foldSteps_msStep_elfIds_lookup (g : List (String × String)) :
    ∀ (kept : List Row) (st st2 : MsState) (k : String),
      foldSteps (msStep g) st kept = Except.ok st2 →
      odLookup k st2.elfIds =
        (match (kept.filter (fun r2 => getField r2 fElfName = k)).getLast? with
         | some r2 => some (getField r2 fElfId)
         | none => odLookup k st.elfIds) := by
  intro kept
  induction kept with
  | nil =>
    intro st st2 k h
    rw [foldSteps] at h
    injection h with h2
    subst h2
    simp
  | cons r rs ih =>
    intro st st2 k h
    rw [foldSteps] at h
    cases hm : msStep g st r with
    | error e => rw [hm] at h; cases h
    | ok st1 =>
      rw [hm] at h
      have hids := msStep_ok_elfIds g st r st1 hm
      have IH := ih st1 st2 k h
      by_cases hnk : getField r fElfName = k
      · have hfc : List.filter (fun r2 => decide (getField r2 fElfName = k)) (r :: rs) =
            r :: List.filter (fun r2 => decide (getField r2 fElfName = k)) rs := by
          rw [List.filter_cons]
          simp [hnk]
        cases hfl : (rs.filter (fun r2 => getField r2 fElfName = k)).getLast? with
        | some r2 =>
          rw [hfl] at IH
          rw [hfc, List.getLast?_cons, hfl]
          exact IH
        | none =>
          rw [hfl] at IH
          rw [hids, hnk, odLookup_odInsert_self] at IH
          rw [hfc, List.getLast?_cons, hfl]
          exact IH
      · have hfc : List.filter (fun r2 => decide (getField r2 fElfName = k)) (r :: rs) =
            List.filter (fun r2 => decide (getField r2 fElfName = k)) rs := by
          rw [List.filter_cons]
          simp [hnk]
        cases hfl : (rs.filter (fun r2 => getField r2 fElfName = k)).getLast? with
        | some r2 =>
          rw [hfl] at IH
          rw [hfc, hfl]
          exact IH
        | none =>
          rw [hfl] at IH
          rw [hids, odLookup_odInsert_ne (getField r fElfId) st.elfIds hnk] at IH
          rw [hfc, hfl]
          exact IH

theorem odAppend_good (P : PreRow → Prop) (color : String) (t : PreRow)
    (gc : List (String × List PreRow))
    (hgc : ∀ g ∈ gc, ∀ t2 ∈ g.2, P t2) (ht : P t) :
    ∀ g ∈ odAppend color t gc, ∀ t2 ∈ g.2, P t2 := by
  intro g hg t2 ht2
  unfold odAppend at hg
  cases hl : odLookup color gc with
  | some l =>
    rw [hl] at hg
    rcases mem_odInsert hg with rfl | hg2
    · rcases List.mem_append.mp ht2 with h3 | h3
      · exact hgc (color, l) (odLookup_mem hl) t2 h3
      · rw [List.mem_singleton.mp h3]
        exact ht
    · exact hgc g hg2 t2 ht2
  | none =>
    rw [hl] at hg
    rcases mem_odInsert hg with rfl | hg2
    · rw [List.mem_singleton.mp ht2]
      exact ht
    · exact hgc g hg2 t2 ht2

theorem groupColorsOfElf_good (elfIds : List (String × String)) (elf : String) :
    ∀ (cmap : List (String × Dec)) (gc gc2 : List (String × List PreRow)),
      groupColorsOfElf elfIds elf cmap gc = Except.ok gc2 →
      (∀ g ∈ gc, ∀ t ∈ g.2, t.elfId = (odLookup t.elfName elfIds).getD "") →
      ∀ g ∈ gc2, ∀ t ∈ g.2, t.elfId = (odLookup t.elfName elfIds).getD "" := by
  intro cmap
  induction cmap with
  | nil =>
    intro gc gc2 h hgc
    rw [groupColorsOfElf] at h
    injection h with h2
    subst h2
    exact hgc
  | cons cg rest ih =>
    intro gc gc2 h hgc
    rw [groupColorsOfElf] at h
    cases hcat : odLookup cg.1 COLOR_TO_COLORCAT with
    | none => rw [hcat] at h; cases h
    | some cat =>
      rw [hcat] at h
      refine ih _ _ h (odAppend_good _ cg.1 _ gc hgc rfl)

theorem groupByColor_good (elfIds : List (String × String)) :
    ∀ (perElf : List (String × List (String × Dec)))
      (gc gc2 : List (String × List PreRow)),
      groupByColor elfIds perElf gc = Except.ok gc2 →
      (∀ g ∈ gc, ∀ t ∈ g.2, t.elfId = (odLookup t.elfName elfIds).getD "") →
      ∀ g ∈ gc2, ∀ t ∈ g.2, t.elfId = (odLookup t.elfName elfIds).getD "" := by
  intro perElf
  induction perElf with
  | nil =>
    intro gc gc2 h hgc
    rw [groupByColor] at h
    injection h with h2
    subst h2
    exact hgc
  | cons ec rest ih =>
    intro gc gc2 h hgc
    rw [groupByColor] at h
    cases hge : groupColorsOfElf elfIds ec.1 ec.2 gc with
    | error e => rw [hge] at h; cases h
    | ok gcm =>
      rw [hge] at h
      exact ih _ _ h (groupColorsOfElf_good elfIds ec.1 ec.2 gc gcm hge hgc)

theorem mem_rankWithinColors (grouped : List (String × List PreRow)) (r : MsRow)
    (h : r ∈ rankWithinColors grouped) :
    ∃ g ∈ grouped, ∃ p ∈ g.2, ∃ i : Nat, r = toMsRow (p, i) := by
  unfold rankWithinColors at h
  obtain ⟨g, hg, hr2⟩ := List.mem_flatMap.mp h
  obtain ⟨pr, hpr, hpr2⟩ := List.mem_map.mp hr2
  refine ⟨g, hg, pr.1, ?_, pr.2, hpr2.symm⟩
  exact (mem_sortDescBy _ _ _).mp (mem_rankIndex hpr)

theorem elf_grams_ok_shape (g : List (String × String)) (ds de : Option Nat)
    (input : List Row) (rows : List MsRow) (elfIds : List (String × String))
    (h : elf_grams_by_gem_color g ds de input = Except.ok (rows, elfIds)) :
    ∃ kept st grouped,
      get_csv_bits msFieldnamesIn ds de input = Except.ok kept ∧
      foldSteps (msStep g) (MsState.mk [] []) kept = Except.ok st ∧
      groupByColor st.elfIds st.perElf [] = Except.ok grouped ∧
      rows = rankWithinColors grouped ∧ elfIds = st.elfIds := by
  cases hk : get_csv_bits msFieldnamesIn ds de input with
  | error e => simp [elf_grams_by_gem_color, hk] at h
  | ok kept =>
    cases hf : foldSteps (msStep g) (MsState.mk [] []) kept with
    | error e => simp [elf_grams_by_gem_color, hk, hf] at h
    | ok st =>
      cases hgr : groupByColor st.elfIds st.perElf [] with
      | error e => simp [elf_grams_by_gem_color, hk, hf, hgr] at h
      | ok grouped =>
        simp only [elf_grams_by_gem_color, hk, hf, hgr] at h
        injection h with h2
        injection h2 with h3 h4
        exact ⟨kept, st, grouped, rfl, hf, hgr, h3.symm, h4.symm⟩

/-- C10: for an entity name appearing in several kept rows of one
aggregation pass, the Elf ID recorded is that of the last kept row in source
order (later rows overwrite earlier ones); that value is the Elf ID carried
by every row of the per-elf data set and by every matrix row of that
entity. -/
theorem c10_last_kept_row_id_wins (colo : List Row) (a b : String) (da db : Nat)
    (input kept : List Row) (rows : List MsRow)
    (elfIds gem_rows : List (String × String)) (out : List MatrixRow)
    (hda : parseDate a = some da) (hdb : parseDate b = some db)
    (hg : lookup_gem_rows colo = Except.ok gem_rows)
    (hkept : get_csv_bits msFieldnamesIn (some da) (some db) input = Except.ok kept)
    (hms : elf_grams_by_gem_color gem_rows (some da) (some db) input =
      Except.ok (rows, elfIds))
    (hmat : calculate_MarketShare_matrix colo a b input = Except.ok out) :
    (∀ k : String,
      odLookup k elfIds =
        ((kept.filter (fun r2 => getField r2 fElfName = k)).getLast?).map
          (fun r2 => getField r2 fElfId)) ∧
    (∀ r ∈ rows, r.elfId = (odLookup r.elfName elfIds).getD "") ∧
    (∀ r ∈ out, r.elfId = (odLookup r.elfName elfIds).getD "") := by
  obtain ⟨kept2, st, grouped, hk2, hf, hgr, hrows, hids⟩ :=
    elf_grams_ok_shape gem_rows (some da) (some db) input rows elfIds hms
  have ek : kept2 = kept := Except.ok.inj (hk2.symm.trans hkept)
  rw [ek] at hf
  subst hrows
  subst hids
  refine ⟨?_, ?_, ?_⟩
  · intro k
    have hlk := foldSteps_msStep_elfIds_lookup gem_rows kept (MsState.mk [] []) st k hf
    rw [hlk]
    cases hfl : (kept.filter (fun r2 => getField r2 fElfName = k)).getLast? with
    | some r2 => rfl
    | none => rfl
  · intro r hr
    obtain ⟨gp, hgp, p, hp, i, hri⟩ := mem_rankWithinColors grouped r hr
    have hgood := groupByColor_good st.elfIds st.perElf [] grouped hgr
      (by intro g2 hg2 t ht; cases hg2) gp hgp p hp
    rw [hri]
    exact hgood
  · obtain ⟨da2, db2, gem_rows2, p14, p15, allco2, hda2, hdb2, hg2, h14, h15, hallco2, hout⟩ :=
      calcMatrix_ok_shape colo a b input out hmat
    have eda : da2 = da := Option.some.inj (hda2.symm.trans hda)
    subst eda
    have edb : db2 = db := Option.some.inj (hdb2.symm.trans hdb)
    subst edb
    have eg : gem_rows2 = gem_rows := Except.ok.inj (hg2.symm.trans hg)
    subst eg
    have e15 : p15 = (rankWithinColors grouped, st.elfIds) :=
      Except.ok.inj (h15.symm.trans hms)
    subst e15
    subst hout
    intro r hr
    obtain ⟨ec, hec, hcell⟩ := List.mem_filterMap.mp hr
    obtain ⟨hname, hcolor, hcat, hid, h2014, h2015, hrank, hratio, hshare⟩ :=
      matrixCell_fields _ _ _ _ _ _ _ hcell
    rw [hid, hname]

/-- Witness for C10 at a concrete input where the name Alice carries two
different Elf IDs. -/
theorem c10_witness :
    parseDate exDateStart = some 20150101 ∧ parseDate exDateEnd = some 20150701 ∧
      lookup_gem_rows exColoRuby = Except.ok [("Ruby", "Red")] ∧
      get_csv_bits msFieldnamesIn (some 20150101) (some 20150701) exRowsDupId =
        Except.ok exKeptDup ∧
      elf_grams_by_gem_color [("Ruby", "Red")] (some 20150101) (some 20150701)
        exRowsDupId = Except.ok (exOutDup.1, exOutDup.2) ∧
      calculate_MarketShare_matrix exColoRuby exDateStart exDateEnd exRowsDupId =
        Except.ok exOutDupMat ∧
      odLookup "Alice" exOutDup.2 =
        ((exKeptDup.filter (fun r2 => getField r2 fElfName = "Alice")).getLast?).map
          (fun r2 => getField r2 fElfId) ∧
      (∀ r ∈ exOutDup.1, r.elfId = (odLookup r.elfName exOutDup.2).getD "") ∧
      (∀ r ∈ exOutDupMat, r.elfId = (odLookup r.elfName exOutDup.2).getD "") :=
  ⟨by decide, by decide, by decide, by decide, by decide, by decide,
    (c10_last_kept_row_id_wins exColoRuby exDateStart exDateEnd 20150101 20150701
      exRowsDupId exKeptDup exOutDup.1 exOutDup.2 [("Ruby", "Red")] exOutDupMat
      (by decide) (by decide) (by decide) (by decide) (by decide) (by decide)).1 "Alice",
    (c10_last_kept_row_id_wins exColoRuby exDateStart exDateEnd 20150101 20150701
      exRowsDupId exKeptDup exOutDup.1 exOutDup.2 [("Ruby", "Red")] exOutDupMat
      (by decide) (by decide) (by decide) (by decide) (by decide) (by decide)).2.1,
    (c10_last_kept_row_id_wins exColoRuby exDateStart exDateEnd 20150101 20150701
      exRowsDupId exKeptDup exOutDup.1 exOutDup.2 [("Ruby", "Red")] exOutDupMat
      (by decide) (by decide) (by decide) (by decide) (by decide) (by decide)).2.2⟩

theorem odInsert_keys_nodup {α β : Type} [DecidableEq α] (k : α) (v : β)
    (m : List (α × β)) (h : (m.map Prod.fst).Nodup) :
    ((odInsert k v m).map Prod.fst).Nodup := by
  rw [odInsert_keys]
  by_cases hk : k ∈ m.map Prod.fst
  · rw [if_pos hk]
    exact h
  · rw [if_neg hk]
    rw [List.nodup_append]
    refine ⟨h, List.nodup_singleton k, ?_⟩
    intro a ha hak
    rw [List.mem_singleton.mp hak] at ha
    exact hk ha

theorem foldSteps_msStep_elfIds_keys (g : List (String × String)) :
    ∀ (kept : List Row) (st st2 : MsState),
      foldSteps (msStep g) st kept = Except.ok st2 →
      st2.elfIds.map Prod.fst =
        st.elfIds.map Prod.fst ++
          dedupFirstAux (st.elfIds.map Prod.fst)
            (kept.map (fun r => getField r fElfName)) := by
  intro kept
  induction kept with
  | nil =>
    intro st st2 h
    rw [foldSteps] at h
    injection h with h2
    subst h2
    simp [dedupFirstAux]
  | cons r rs ih =>
    intro st st2 h
    rw [foldSteps] at h
    cases hm : msStep g st r with
    | error e => rw [hm] at h; cases h
    | ok st1 =>
      rw [hm] at h
      have hids := msStep_ok_elfIds g st r st1 hm
      have IH := ih st1 st2 h
      rw [List.map_cons, dedupFirstAux]
      by_cases hk : getField r fElfName ∈ st.elfIds.map Prod.fst
      · rw [if_pos hk, IH, hids, odInsert_keys, if_pos hk]
      · rw [if_neg hk, IH, hids, odInsert_keys, if_neg hk]
        rw [dedupFirstAux_congr (rs.map (fun r2 => getField r2 fElfName))
          (st.elfIds.map Prod.fst ++ [getField r fElfName])
          (getField r fElfName :: st.elfIds.map Prod.fst) ?_]
        · rw [List.append_assoc, List.singleton_append]
        · intro x
          simp only [List.mem_append, List.mem_singleton, List.mem_cons]
          tauto

theorem listProd_nodup {α β : Type} [DecidableEq α] [DecidableEq β] (ys : List β)
    (hys : ys.Nodup) :
    ∀ xs : List α, xs.Nodup → (listProd xs ys).Nodup := by
  intro xs
  induction xs with
  | nil => intro _; simp [listProd]
  | cons x xs ih =>
    intro hxs
    rcases List.nodup_cons.mp hxs with ⟨hx, hxs2⟩
    have hstep : listProd (x :: xs) ys = (ys.map (fun y => (x, y))) ++ listProd xs ys := by
      rw [listProd, List.flatMap_cons, listProd]
    rw [hstep, List.nodup_append]
    refine ⟨?_, ih hxs2, ?_⟩
    · refine List.Nodup.map ?_ hys
      intro y1 y2 hyy
      exact (Prod.ext_iff.mp hyy).2
    · intro p hp1 hp2
      obtain ⟨y, _, hpy⟩ := List.mem_map.mp hp1
      obtain ⟨x2, hx2, hpx2⟩ := List.mem_flatMap.mp hp2
      obtain ⟨y2, _, hpy2⟩ := List.mem_map.mp hpx2
      apply hx
      have e1 : p.1 = x := by rw [← hpy]
      have e2 : p.1 = x2 := by rw [← hpy2]
      rw [← e1, e2]
      exact hx2

theorem filterMap_matrixCell_keys (k14 k15 : List ((String × String) × MsRow))
    (allco : List (String × Dec)) (ids : List (String × String)) :
    ∀ l : List (String × String),
      ((l.filterMap (fun ec => matrixCell k14 k15 allco ids ec.1 ec.2)).map
        (fun r => (r.elfName, r.gemColor))) =
      l.filter (fun ec => (odLookup ec.2 COLOR_TO_COLORCAT).isSome) := by
  intro l
  induction l with
  | nil => rfl
  | cons ec rest ih =>
    cases hcell : matrixCell k14 k15 allco ids ec.1 ec.2 with
    | none =>
      have hcat : (odLookup ec.2 COLOR_TO_COLORCAT).isSome = false := by
        cases hc2 : odLookup ec.2 COLOR_TO_COLORCAT with
        | none => rfl
        | some cat => simp [matrixCell, hc2] at hcell
      simp only [List.filterMap_cons, hcell, List.filter_cons, hcat]
      simp [ih]
    | some row =>
      obtain ⟨hname, hcolor, hcatl, _, _, _, _, _, _⟩ :=
        matrixCell_fields _ _ _ _ _ _ _ hcell
      have hcat : (odLookup ec.2 COLOR_TO_COLORCAT).isSome = true := by
        rw [hcatl]
        rfl
      simp only [List.filterMap_cons, hcell, List.filter_cons, hcat, List.map_cons,
        if_true]
      rw [hname, hcolor, ih]

/-- C1: whenever the gem lookup, the two per-elf passes and the matrix all
succeed, the matrix emits exactly one row for every pair of an entity active
in the reporting window (the elf_ids keys, the first-occurrence names of the
kept rows) with a distinct color of the lookup file whose color has a
category; a pair whose color is uncategorised is skipped without an error,
and a pair without data still appears, with null numeric fields and
populated Elf Name, Elf ID, Gem Color and Color Cat. -/
theorem c1_cross_product_matrix (colo : List Row) (a b : String) (da db : Nat)
    (input kept : List Row) (gem_rows : List (String × String))
    (p14 p15 : List MsRow × List (String × String)) (out : List MatrixRow)
    (hda : parseDate a = some da) (hdb : parseDate b = some db)
    (hg : lookup_gem_rows colo = Except.ok gem_rows)
    (hkept : get_csv_bits msFieldnamesIn (some da) (some db) input = Except.ok kept)
    (h14 : elf_grams_by_gem_color gem_rows (parseDate "2014-1-1") (parseDate "2015-1-1")
      input = Except.ok p14)
    (h15 : elf_grams_by_gem_color gem_rows (some da) (some db) input = Except.ok p15)
    (h : calculate_MarketShare_matrix colo a b input = Except.ok out) :
    (p15.2.map Prod.fst = dedupFirst (kept.map (fun r => getField r fElfName))) ∧
    ((out.map (fun r => (r.elfName, r.gemColor))) =
      (listProd (p15.2.map Prod.fst) (dedupFirst (gem_rows.map Prod.snd))).filter
        (fun ec => (odLookup ec.2 COLOR_TO_COLORCAT).isSome)) ∧
    (out.map (fun r => (r.elfName, r.gemColor))).Nodup ∧
    (∀ r ∈ out,
      odLookup r.gemColor COLOR_TO_COLORCAT = some r.colorCat ∧
      r.elfId = (odLookup r.elfName p15.2).getD "" ∧
      r.tw2014 = (odLookup (r.elfName, r.gemColor) (double_key_elf_color p14.1)).map
        MsRow.totalWeight ∧
      r.tw2015 = (odLookup (r.elfName, r.gemColor) (double_key_elf_color p15.1)).map
        MsRow.totalWeight ∧
      r.colorRank = (odLookup (r.elfName, r.gemColor) (double_key_elf_color p15.1)).map
        MsRow.rankInColor ∧
      ((odLookup (r.elfName, r.gemColor) (double_key_elf_color p14.1) = none ∧
        odLookup (r.elfName, r.gemColor) (double_key_elf_color p15.1) = none) →
        r.tw2014 = none ∧ r.tw2015 = none ∧ r.ratio = none ∧ r.share = none ∧
          r.colorRank = none)) := by
  obtain ⟨da2, db2, gem_rows2, p14two, p15two, allco2, hda2, hdb2, hg2, h14x, h15x,
    hallco2, hout⟩ := calcMatrix_ok_shape colo a b input out h
  have eda : da = da2 := Option.some.inj (hda.symm.trans hda2)
  subst eda
  have edb : db = db2 := Option.some.inj (hdb.symm.trans hdb2)
  subst edb
  have eg : gem_rows = gem_rows2 := Except.ok.inj (hg.symm.trans hg2)
  subst eg
  have e14 : p14 = p14two := Except.ok.inj (h14.symm.trans h14x)
  subst e14
  have e15 : p15 = p15two := Except.ok.inj (h15.symm.trans h15x)
  subst e15
  subst hout
  have hnames : p15.2.map Prod.fst = dedupFirst (kept.map (fun r => getField r fElfName)) := by
    obtain ⟨kept2, st, grouped, hk2, hf, hgr, hrows, hids⟩ :=
      elf_grams_ok_shape gem_rows (some da) (some db) input p15.1 p15.2 h15
    have ek : kept2 = kept := Except.ok.inj (hk2.symm.trans hkept)
    rw [ek] at hf
    rw [hids, foldSteps_msStep_elfIds_keys gem_rows kept (MsState.mk [] []) st hf]
    rfl
  refine ⟨hnames, filterMap_matrixCell_keys _ _ _ _ _, ?_, ?_⟩
  · rw [filterMap_matrixCell_keys]
    refine List.Nodup.filter _ ?_
    refine listProd_nodup _ (nodup_dedupFirst _) _ ?_
    rw [hnames]
    exact nodup_dedupFirst _
  · intro r hr
    obtain ⟨ec, hec, hcell⟩ := List.mem_filterMap.mp hr
    obtain ⟨hname, hcolor, hcat, hid, h2014, h2015, hrank, hratio, hshare⟩ :=
      matrixCell_fields _ _ _ _ _ _ _ hcell
    refine ⟨by rw [hcolor]; exact hcat, by rw [hname]; exact hid,
      by rw [hname, hcolor]; exact h2014, by rw [hname, hcolor]; exact h2015,
      by rw [hname, hcolor]; exact hrank, ?_⟩
    rintro ⟨hn14, hn15⟩
    rw [hname, hcolor] at hn14 hn15
    refine ⟨by rw [h2014, hn14]; rfl, by rw [h2015, hn15]; rfl, ?_, ?_,
      by rw [hrank, hn15]; rfl⟩
    · rw [hratio, hn15]
    · rw [hshare, hn15]
      simp [isTruthy]

/-- Witness for C1 at a concrete input with two elves, three lookup colors,
one uncategorised color and one pair with data in each period. -/
theorem c1_witness :
    parseDate exDateStart = some 20150101 ∧ parseDate exDateEnd = some 20150701 ∧
      lookup_gem_rows exColo1 = Except.ok exGemRows1 ∧
      get_csv_bits msFieldnamesIn (some 20150101) (some 20150701) exInput1 =
        Except.ok exKept1 ∧
      elf_grams_by_gem_color exGemRows1 (parseDate "2014-1-1") (parseDate "2015-1-1")
        exInput1 = Except.ok exP14 ∧
      elf_grams_by_gem_color exGemRows1 (some 20150101) (some 20150701) exInput1 =
        Except.ok exP15 ∧
      calculate_MarketShare_matrix exColo1 exDateStart exDateEnd exInput1 =
        Except.ok exOut1 ∧
      ((exP15.2.map Prod.fst = dedupFirst (exKept1.map (fun r => getField r fElfName))) ∧
      ((exOut1.map (fun r => (r.elfName, r.gemColor))) =
        (listProd (exP15.2.map Prod.fst) (dedupFirst (exGemRows1.map Prod.snd))).filter
          (fun ec => (odLookup ec.2 COLOR_TO_COLORCAT).isSome)) ∧
      (exOut1.map (fun r => (r.elfName, r.gemColor))).Nodup ∧
      (∀ r ∈ exOut1,
        odLookup r.gemColor COLOR_TO_COLORCAT = some r.colorCat ∧
        r.elfId = (odLookup r.elfName exP15.2).getD "" ∧
        r.tw2014 = (odLookup (r.elfName, r.gemColor) (double_key_elf_color exP14.1)).map
          MsRow.totalWeight ∧
        r.tw2015 = (odLookup (r.elfName, r.gemColor) (double_key_elf_color exP15.1)).map
          MsRow.totalWeight ∧
        r.colorRank = (odLookup (r.elfName, r.gemColor) (double_key_elf_color exP15.1)).map
          MsRow.rankInColor ∧
        ((odLookup (r.elfName, r.gemColor) (double_key_elf_color exP14.1) = none ∧
          odLookup (r.elfName, r.gemColor) (double_key_elf_color exP15.1) = none) →
          r.tw2014 = none ∧ r.tw2015 = none ∧ r.ratio = none ∧ r.share = none ∧
            r.colorRank = none))) :=
  ⟨by decide, by decide, by decide, by decide, by decide, by decide, by decide,
    c1_cross_product_matrix exColo1 exDateStart exDateEnd 20150101 20150701
      exInput1 exKept1 exGemRows1 exP14 exP15 exOut1
      (by decide) (by decide) (by decide) (by decide) (by decide) (by decide) (by decide)⟩

end MiningReport
